import Mathlib

/-!
Verification of the D3D12 command-buffer recording engine
(`src/backend/dx12/src/command.rs`) against its specification.

The Rust source is shallowly embedded: machine integers (`u32`, `u64`,
`i32`) are modelled as `Nat`/`Int` with explicit wrapping (`% 2^32`,
`% 2^64`, two's-complement casts) at the points where the source performs
machine arithmetic; Rust panics (`assert!`, `unwrap`, `unimplemented!`,
out-of-bounds indexing, division by zero, debug overflow checks on
subtraction) are modelled by `Option`, with `none` denoting an abort.
-/

namespace Dx12Cmd

/-! ## Machine-integer helpers -/

/-- Truncation to `u32` (wrapping semantics of Rust `as u32` / release-mode
`u32` arithmetic). -/
def u32 (n : Nat) : Nat := n % 2 ^ 32

/-- Truncation to `u64`. -/
def u64 (n : Nat) : Nat := n % 2 ^ 64

/-- Bitwise complement on `u64` (Rust `!x`): XOR with the all-ones word. -/
def not64 (x : Nat) : Nat := (2 ^ 64 - 1) ^^^ x

/-- Reinterpretation of a (possibly truncated) unsigned value as `i32`
(Rust `as i32` on the low 32 bits). -/
def toI32 (n : Nat) : Int :=
  if n % 2 ^ 32 < 2 ^ 31 then ((n % 2 ^ 32 : Nat) : Int)
  else ((n % 2 ^ 32 : Nat) : Int) - 2 ^ 32

/-- Reinterpretation of an `i32` value as `u32` (Rust `as u32`):
two's complement of the low 32 bits. -/
def i32toU32 (x : Int) : Nat := (x % 2 ^ 32).toNat

/-- Wrapping `u64` subtraction (release-mode Rust `a - b` on `u64`). -/
def wsub64 (a b : Nat) : Nat := (a + 2 ^ 64 - b % 2 ^ 64) % 2 ^ 64

/-- `div` from command.rs: `assert_eq!(a % b, 0); a / b` (a zero divisor
panics inside the remainder check). -/
def rdiv (a b : Nat) : Option Nat :=
  if b ≠ 0 ∧ a % b = 0 then some (a / b) else none

theorem u64_lt (n : Nat) : u64 n < 2 ^ 64 := Nat.mod_lt _ (by norm_num)

theorem u32_lt (n : Nat) : u32 n < 2 ^ 32 := Nat.mod_lt _ (by norm_num)

theorem u32_eq_of_lt {n : Nat} (h : n < 2 ^ 32) : u32 n = n := Nat.mod_eq_of_lt h

theorem u64_eq_of_lt {n : Nat} (h : n < 2 ^ 64) : u64 n = n := Nat.mod_eq_of_lt h

theorem toI32_eq_of_lt {n : Nat} (h : n < 2 ^ 31) : toI32 n = (n : Int) := by
  have h32 : n < 2 ^ 32 := lt_trans h (by norm_num)
  unfold toI32
  rw [Nat.mod_eq_of_lt h32, if_pos h]

theorem i32toU32_eq_of_nonneg {x : Int} (h : 0 ≤ x) (h2 : x < 2 ^ 32) :
    i32toU32 x = x.toNat := by
  unfold i32toU32
  rw [Int.emod_eq_of_lt h h2]

/-! Bridge lemmas for the bit-mask operations of the source. -/

theorem testBit_not64 (x j : Nat) :
    (not64 x).testBit j = (decide (j < 64) ^^ x.testBit j) := by
  have h1 : (2 ^ 64 - 1 : Nat).testBit j = decide (j < 64) :=
    Nat.testBit_two_pow_sub_one 64 j
  unfold not64
  rw [Nat.testBit_xor, h1]

theorem testBit_of_ge {n j : Nat} (hn : n < 2 ^ 64) (hj : 64 ≤ j) :
    n.testBit j = false :=
  Nat.testBit_eq_false_of_lt (lt_of_lt_of_le hn (Nat.pow_le_pow_right (by norm_num) hj))

/-- `n & !(512 - 1)` on `u64` rounds `n` down to a multiple of 512. -/
theorem land_not511_eq (n : Nat) (hn : n < 2 ^ 64) :
    n &&& not64 511 = n - n % 512 := by
  have h512 : n - n % 512 = (n >>> 9) <<< 9 := by
    rw [Nat.shiftLeft_eq, Nat.shiftRight_eq_div_pow]
    have := Nat.mod_add_div n 512
    have h2 : (2 : Nat) ^ 9 = 512 := by norm_num
    rw [h2]
    omega
  apply Nat.eq_of_testBit_eq
  intro j
  rw [Nat.testBit_land, h512, Nat.testBit_shiftLeft, Nat.testBit_shiftRight]
  have h511 : (511 : Nat) = 2 ^ 9 - 1 := by norm_num
  rw [h511, testBit_not64, Nat.testBit_two_pow_sub_one]
  by_cases h9 : 9 ≤ j
  · by_cases h64 : j < 64
    · have : 9 + (j - 9) = j := by omega
      simp [h9, h64, Nat.not_lt.mpr h9, this]
    · have hf : n.testBit j = false := testBit_of_ge hn (by omega)
      have hf2 : n.testBit (9 + (j - 9)) = false := by
        have : 9 + (j - 9) = j := by omega
        rw [this, hf]
      simp [h9, h64, hf, hf2, Nat.not_lt.mpr h9]
  · simp [h9, Nat.lt_of_not_le h9, show j < 64 by omega]

theorem land_not511_mod (n : Nat) (hn : n < 2 ^ 64) :
    (n &&& not64 511) % 512 = 0 := by
  rw [land_not511_eq n hn]
  have := Nat.mod_add_div n 512
  omega

theorem land_not511_le (n : Nat) : n &&& not64 511 ≤ n := Nat.and_le_left

theorem land_not511_gap (n : Nat) (hn : n < 2 ^ 64) :
    n - (n &&& not64 511) < 512 := by
  rw [land_not511_eq n hn]
  have h1 : n % 512 < 512 := Nat.mod_lt _ (by norm_num)
  omega

theorem land_not511_self (n : Nat) (hn : n < 2 ^ 64) (h : n % 512 = 0) :
    n &&& not64 511 = n := by
  rw [land_not511_eq n hn, h, Nat.sub_zero]

theorem lor_lt_64 {m n : Nat} (hm : m < 2 ^ 64) (hn : n < 2 ^ 64) :
    m ||| n < 2 ^ 64 :=
  Nat.bitwise_lt hm hn

theorem testBit_lor_shl (m i j : Nat) :
    (m ||| 1 <<< i).testBit j = (m.testBit j || decide (j = i)) := by
  rw [Nat.testBit_lor, Nat.one_shiftLeft, Nat.testBit_two_pow]
  by_cases h : i = j <;> simp [h, eq_comm]

theorem testBit_land_not_shl (m i j : Nat) (hi : i < 64) (hm : m < 2 ^ 64) :
    (m &&& not64 (1 <<< i)).testBit j = (m.testBit j && decide (j ≠ i)) := by
  rw [Nat.testBit_land, Nat.one_shiftLeft, testBit_not64, Nat.testBit_two_pow]
  by_cases hij : i = j
  · subst hij; simp [hi]
  · by_cases h64 : j < 64
    · simp [hij, h64, Ne.symm hij]
    · have : m.testBit j = false := testBit_of_ge hm (by omega)
      simp [hij, h64, this]

theorem land_le_lt_64 {m n : Nat} (hm : m < 2 ^ 64) : m &&& n < 2 ^ 64 :=
  lt_of_le_of_lt Nat.and_le_left hm

/-! ## Query tracking (`begin_query` / `end_query`) -/

/-- `D3D12_QUERY_HEAP_TYPE` values used by the backend. -/
inductive QueryHeapType where
  | occlusion
  | timestamp
  | pipelineStatistics
deriving DecidableEq

structure QueryPool where
  ty : QueryHeapType
deriving DecidableEq

structure Query where
  pool : QueryPool
  id : Nat
deriving DecidableEq

inductive OcclusionQuery where
  | binary (id : Nat)
  | precise (id : Nat)
deriving DecidableEq

/-- `D3D12_QUERY_TYPE` values issued to the native list. -/
inductive D3DQueryType where
  | occlusion
  | binaryOcclusion
  | timestamp
  | pipelineStatistics
deriving DecidableEq

/-- The query trackers of `CommandBuffer`. -/
structure QueryState where
  occlusion_query : Option OcclusionQuery
  pipeline_stats_query : Option Nat
deriving DecidableEq

/-- `begin_query`: records the query into the tracker of its category and
issues a native `BeginQuery`.  A timestamp pool is a panic. -/
def begin_query (s : QueryState) (q : Query) (precise : Bool) :
    Option (QueryState × D3DQueryType) :=
  match q.pool.ty with
  | .occlusion =>
    if precise then
      some ({ s with occlusion_query := some (.precise q.id) }, .occlusion)
    else
      some ({ s with occlusion_query := some (.binary q.id) }, .binaryOcclusion)
  | .timestamp => none
  | .pipelineStatistics =>
    some ({ s with pipeline_stats_query := some q.id }, .pipelineStatistics)

/-- `end_query`: the (pool type, id) pair must match the tracked query of
its category exactly, else the catch-all arm panics; on a match the
tracker is cleared and a native `EndQuery` is issued. -/
def end_query (s : QueryState) (q : Query) :
    Option (QueryState × D3DQueryType) :=
  match q.pool.ty with
  | .occlusion =>
    if s.occlusion_query = some (.precise q.id) then
      some ({ s with occlusion_query := none }, .occlusion)
    else if s.occlusion_query = some (.binary q.id) then
      some ({ s with occlusion_query := none }, .binaryOcclusion)
    else none
  | .pipelineStatistics =>
    if s.pipeline_stats_query = some q.id then
      some ({ s with pipeline_stats_query := none }, .pipelineStatistics)
    else none
  | .timestamp => none

/-- The ending query matches the currently tracked query of its category. -/
def endMatches (s : QueryState) (q : Query) : Prop :=
  (q.pool.ty = .occlusion ∧
    (s.occlusion_query = some (.binary q.id) ∨ s.occlusion_query = some (.precise q.id))) ∨
  (q.pool.ty = .pipelineStatistics ∧ s.pipeline_stats_query = some q.id)

instance (s : QueryState) (q : Query) : Decidable (endMatches s q) := by
  unfold endMatches; infer_instance

/-- C7: `end_query` panics exactly when the ending query's (pool type, id)
pair does not match the tracked query of its category; on a match it
clears that category's tracker, so a following `begin_query` of the same
category records a new active query. -/
theorem end_query_pairing (s : QueryState) (q : Query) :
    (¬ endMatches s q → end_query s q = none) ∧
    (endMatches s q →
      (q.pool.ty = .occlusion →
        ∃ ty, end_query s q = some ({ s with occlusion_query := none }, ty) ∧
          ∀ pr, ∃ s2 ty2,
            begin_query { s with occlusion_query := none } q pr = some (s2, ty2) ∧
            s2.occlusion_query ≠ none) ∧
      (q.pool.ty = .pipelineStatistics →
        ∃ ty, end_query s q = some ({ s with pipeline_stats_query := none }, ty) ∧
          ∀ pr, ∃ s2 ty2,
            begin_query { s with pipeline_stats_query := none } q pr = some (s2, ty2) ∧
            s2.pipeline_stats_query ≠ none)) := by
  rcases q with ⟨⟨ty⟩, id⟩
  constructor
  · intro hne
    unfold end_query
    cases ty
    · simp only
      split
      · exact absurd (Or.inl ⟨rfl, Or.inr (by assumption)⟩) hne
      · split
        · exact absurd (Or.inl ⟨rfl, Or.inl (by assumption)⟩) hne
        · rfl
    · rfl
    · simp only
      split
      · exact absurd (Or.inr ⟨rfl, by assumption⟩) hne
      · rfl
  · intro hm
    cases ty
    · refine ⟨fun _ => ?_, fun hc => by cases hc⟩
      rcases hm with ⟨_, h⟩ | ⟨hc, _⟩
      · by_cases hp : s.occlusion_query = some (.precise id)
        · exact ⟨.occlusion, by simp [end_query, hp],
            fun pr => by cases pr <;> exact ⟨_, _, rfl, by simp⟩⟩
        · have hb : s.occlusion_query = some (.binary id) := by
            rcases h with h | h
            · exact h
            · exact absurd h hp
          exact ⟨.binaryOcclusion, by simp [end_query, hp, hb],
            fun pr => by cases pr <;> exact ⟨_, _, rfl, by simp⟩⟩
      · cases hc
    · rcases hm with ⟨hc, _⟩ | ⟨hc, _⟩ <;> cases hc
    · refine ⟨(fun hc => nomatch hc), fun _ => ?_⟩
      rcases hm with ⟨hc, _⟩ | ⟨_, h⟩
      · cases hc
      · exact ⟨.pipelineStatistics, by simp [end_query, h],
          fun pr => by cases pr <;> exact ⟨_, _, rfl, by simp⟩⟩

/-- Witness for C7 at a concrete state: a tracked precise occlusion query
with id 3 matches and clears the tracker; a mismatching id 4 panics. -/
theorem end_query_pairing_witness :
    (end_query ⟨some (.precise 3), none⟩ ⟨⟨.occlusion⟩, 4⟩ = none) ∧
    (∃ ty, end_query ⟨some (.precise 3), none⟩ ⟨⟨.occlusion⟩, 3⟩ =
        some (⟨none, none⟩, ty)) := by
  refine ⟨(end_query_pairing ⟨some (.precise 3), none⟩ ⟨⟨.occlusion⟩, 4⟩).1 (by decide), ?_⟩
  obtain ⟨ty, hty⟩ :=
    ((end_query_pairing ⟨some (.precise 3), none⟩ ⟨⟨.occlusion⟩, 3⟩).2 (by decide)).1 rfl
  exact ⟨ty, hty.1⟩

/-! ## Virtual root-signature storage (`UserData`, `PipelineCache`) -/

/-- Fixed size of the root signature (`ROOT_SIGNATURE_SIZE`). -/
def ROOT_SIGNATURE_SIZE : Nat := 64

/-- Strongly-typed root signature element. -/
inductive RootElement where
  | constant (v : Nat)
  | tableSrvCbvUav (off : Nat)
  | tableSampler (off : Nat)
  | undefined
deriving DecidableEq

/-- Virtual data storage for the current root signature memory:
an array of `ROOT_SIGNATURE_SIZE` elements plus a `u64` dirty bitmask. -/
structure UserData where
  data : List RootElement
  dirty_mask : Nat
deriving DecidableEq

def UserData.new : UserData :=
  ⟨List.replicate ROOT_SIGNATURE_SIZE .undefined, 0⟩

/-- `UserData::set_constants`: writes contiguous constants and marks each
written register dirty; `assert!(offset + data.len() <= ROOT_SIGNATURE_SIZE)`. -/
def UserData.set_constants (ud : UserData) (offset : Nat) (vals : List Nat) :
    Option UserData :=
  if offset + vals.length ≤ ROOT_SIGNATURE_SIZE then
    some (vals.enum.foldl
      (fun u iv =>
        ⟨u.data.set (offset + iv.1) (.constant iv.2),
         u.dirty_mask ||| 1 <<< (offset + iv.1)⟩)
      ud)
  else none

/-- `UserData::set_srv_cbv_uav_table`: `assert!(offset < ROOT_SIGNATURE_SIZE)`. -/
def UserData.set_srv_cbv_uav_table (ud : UserData) (offset tableStart : Nat) :
    Option UserData :=
  if offset < ROOT_SIGNATURE_SIZE then
    some ⟨ud.data.set offset (.tableSrvCbvUav tableStart),
          ud.dirty_mask ||| 1 <<< offset⟩
  else none

/-- `UserData::set_sampler_table`: `assert!(offset < ROOT_SIGNATURE_SIZE)`. -/
def UserData.set_sampler_table (ud : UserData) (offset tableStart : Nat) :
    Option UserData :=
  if offset < ROOT_SIGNATURE_SIZE then
    some ⟨ud.data.set offset (.tableSampler tableStart),
          ud.dirty_mask ||| 1 <<< offset⟩
  else none

/-- `UserData::clear_dirty`: `dirty_mask &= !(1 << i)`. -/
def UserData.clear_dirty (ud : UserData) (i : Nat) : UserData :=
  ⟨ud.data, ud.dirty_mask &&& not64 (1 <<< i)⟩

/-- A push-constant range of the pipeline layout (`RootConstant` with its
`range.start`/`range.end`). -/
structure RootConstant where
  lo : Nat
  hi : Nat
deriving DecidableEq

/-- Per-bind-point cache of the bound pipeline, signature, slot layout and
virtualized root-signature memory. -/
structure PipelineCache where
  pipeline : Option (Nat × Nat)
  num_parameter_slots : Nat
  root_constants : List RootConstant
  user_data : UserData
  srv_cbv_uav_start : Nat
  sampler_start : Nat
deriving DecidableEq

def PipelineCache.new : PipelineCache :=
  ⟨none, 0, [], UserData.new, 0, 0⟩

/-! ## Pipeline binding (`bind_graphics_pipeline` / `bind_compute_pipeline`) -/

/-- The fields of `n::GraphicsPipeline` consulted by `bind_graphics_pipeline`
that act on the pipeline cache (native handles are opaque ids). -/
structure GraphicsPipeline where
  raw : Nat
  signature : Nat
  num_parameter_slots : Nat
  constants : List RootConstant

structure ComputePipeline where
  raw : Nat
  signature : Nat
  num_parameter_slots : Nat
  constants : List RootConstant

/-- Effect of `bind_graphics_pipeline` on the graphics `PipelineCache`:
an unchanged native signature leaves the cached user data alone, any other
case installs the new slot layout and marks the whole register file dirty
(`dirty_mask = !0`). -/
def bind_graphics_pipeline (cache : PipelineCache) (p : GraphicsPipeline) :
    PipelineCache :=
  let c1 :=
    match cache.pipeline with
    | some (_, signature) =>
      if signature = p.signature then cache
      else { cache with
              num_parameter_slots := p.num_parameter_slots,
              root_constants := p.constants,
              user_data := { cache.user_data with dirty_mask := not64 0 } }
    | none =>
      { cache with
        num_parameter_slots := p.num_parameter_slots,
        root_constants := p.constants,
        user_data := { cache.user_data with dirty_mask := not64 0 } }
  { c1 with pipeline := some (p.raw, p.signature) }

/-- Effect of `bind_compute_pipeline` on the compute `PipelineCache`. -/
def bind_compute_pipeline (cache : PipelineCache) (p : ComputePipeline) :
    PipelineCache :=
  let c1 :=
    match cache.pipeline with
    | some (_, signature) =>
      if signature = p.signature then cache
      else { cache with
              num_parameter_slots := p.num_parameter_slots,
              root_constants := p.constants,
              user_data := { cache.user_data with dirty_mask := not64 0 } }
    | none =>
      { cache with
        num_parameter_slots := p.num_parameter_slots,
        root_constants := p.constants,
        user_data := { cache.user_data with dirty_mask := not64 0 } }
  { c1 with pipeline := some (p.raw, p.signature) }

theorem testBit_not64_zero (i : Nat) (hi : i < 64) : (not64 0).testBit i = true := by
  rw [testBit_not64]
  simp [hi, Nat.zero_testBit]

/-- C3: binding a pipeline whose native signature equals the cached one
leaves the bind point's register file and dirty mask unchanged; binding a
pipeline whose signature differs from the cached one (or with nothing
cached) sets all 64 dirty bits.  Both bind points behave alike. -/
theorem bind_pipeline_signature_invalidation
    (gcache : PipelineCache) (gp : GraphicsPipeline)
    (ccache : PipelineCache) (cp : ComputePipeline) :
    ((∃ r0, gcache.pipeline = some (r0, gp.signature)) →
      (bind_graphics_pipeline gcache gp).user_data = gcache.user_data) ∧
    ((∀ r0 s0, gcache.pipeline = some (r0, s0) → s0 ≠ gp.signature) →
      ∀ i < 64, (bind_graphics_pipeline gcache gp).user_data.dirty_mask.testBit i = true) ∧
    ((∃ r0, ccache.pipeline = some (r0, cp.signature)) →
      (bind_compute_pipeline ccache cp).user_data = ccache.user_data) ∧
    ((∀ r0 s0, ccache.pipeline = some (r0, s0) → s0 ≠ cp.signature) →
      ∀ i < 64, (bind_compute_pipeline ccache cp).user_data.dirty_mask.testBit i = true) := by
  refine ⟨?_, ?_, ?_, ?_⟩
  · rintro ⟨r0, hp⟩
    unfold bind_graphics_pipeline
    rw [hp]
    simp
  · intro hne i hi
    unfold bind_graphics_pipeline
    rcases hg : gcache.pipeline with _ | ⟨r0, s0⟩
    · simpa using testBit_not64_zero i hi
    · have : s0 ≠ gp.signature := hne r0 s0 hg
      simp only [this, if_false]
      simpa using testBit_not64_zero i hi
  · rintro ⟨r0, hp⟩
    unfold bind_compute_pipeline
    rw [hp]
    simp
  · intro hne i hi
    unfold bind_compute_pipeline
    rcases hg : ccache.pipeline with _ | ⟨r0, s0⟩
    · simpa using testBit_not64_zero i hi
    · have : s0 ≠ cp.signature := hne r0 s0 hg
      simp only [this, if_false]
      simpa using testBit_not64_zero i hi

/-- Witness for C3: a concrete rebind with the same signature 7 keeps the
clean user data; binding over a cached signature 7 with signature 8 sets
dirty bit 63. -/
theorem bind_pipeline_signature_invalidation_witness :
    (bind_graphics_pipeline ⟨some (1, 7), 0, [], UserData.new, 0, 0⟩
        ⟨2, 7, 5, []⟩).user_data = UserData.new ∧
    (bind_graphics_pipeline ⟨some (1, 7), 0, [], UserData.new, 0, 0⟩
        ⟨2, 8, 5, []⟩).user_data.dirty_mask.testBit 63 = true ∧
    (bind_compute_pipeline ⟨some (1, 7), 0, [], UserData.new, 0, 0⟩
        ⟨2, 7, 5, []⟩).user_data = UserData.new ∧
    (bind_compute_pipeline ⟨some (1, 7), 0, [], UserData.new, 0, 0⟩
        ⟨2, 8, 5, []⟩).user_data.dirty_mask.testBit 63 = true := by
  refine ⟨?_, ?_, ?_, ?_⟩
  · exact (bind_pipeline_signature_invalidation
      ⟨some (1, 7), 0, [], UserData.new, 0, 0⟩ ⟨2, 7, 5, []⟩
      ⟨some (1, 7), 0, [], UserData.new, 0, 0⟩ ⟨2, 7, 5, []⟩).1 ⟨1, rfl⟩
  · exact (bind_pipeline_signature_invalidation
      ⟨some (1, 7), 0, [], UserData.new, 0, 0⟩ ⟨2, 8, 5, []⟩
      ⟨some (1, 7), 0, [], UserData.new, 0, 0⟩ ⟨2, 8, 5, []⟩).2.1
      (fun r0 s0 h => by cases h; decide) 63 (by norm_num)
  · exact (bind_pipeline_signature_invalidation
      ⟨some (1, 7), 0, [], UserData.new, 0, 0⟩ ⟨2, 7, 5, []⟩
      ⟨some (1, 7), 0, [], UserData.new, 0, 0⟩ ⟨2, 7, 5, []⟩).2.2.1 ⟨1, rfl⟩
  · exact (bind_pipeline_signature_invalidation
      ⟨some (1, 7), 0, [], UserData.new, 0, 0⟩ ⟨2, 8, 5, []⟩
      ⟨some (1, 7), 0, [], UserData.new, 0, 0⟩ ⟨2, 8, 5, []⟩).2.2.2
      (fun r0 s0 h => by cases h; decide) 63 (by norm_num)

/-! ## Descriptor-set binding (`bind_descriptor_sets`) -/

/-- The two descriptor-table kinds a `n::PipelineLayout` table entry can
declare (`table.contains(n::SRV_CBV_UAV)` / `table.contains(n::SAMPLERS)`). -/
structure TableFlags where
  srv_cbv_uav : Bool
  samplers : Bool
deriving DecidableEq

structure PipelineLayout where
  tables : List TableFlags
  root_constants : List RootConstant

/-- The fields of `n::DescriptorSet` consulted by `bind_descriptor_sets`;
GPU handles are byte addresses. -/
structure DescriptorSet where
  heap_srv_cbv_uav : Nat
  heap_samplers : Nat
  first_gpu_view : Option Nat
  first_gpu_sampler : Option Nat
  srv_cbv_uav_gpu_start : Nat
  sampler_gpu_start : Nat

/-- Native calls emitted by `bind_descriptor_sets`. -/
inductive DSCall where
  | setDescriptorHeaps (heapSrvCbvUav heapSamplers : Nat)
deriving DecidableEq

/-- One `(set, table)` step of the binding loop; returns the updated
pipeline cache and running `table_id`. -/
def bindOneSet (base srvStart samplerStart : Nat) (p : PipelineCache)
    (tableId : Nat) (set : DescriptorSet) (table : TableFlags) :
    Option (PipelineCache × Nat) := do
  let (p1, t1) ←
    match set.first_gpu_view with
    | none => some (p, tableId)
    | some gpu =>
      if table.srv_cbv_uav then
        match p.user_data.set_srv_cbv_uav_table (tableId + base)
            (u32 (wsub64 gpu srvStart)) with
        | some ud => some ({ p with user_data := ud }, tableId + 1)
        | none => none
      else none
  match set.first_gpu_sampler with
  | none => some (p1, t1)
  | some gpu =>
    if table.samplers then
      match p1.user_data.set_sampler_table (t1 + base)
          (u32 (wsub64 gpu samplerStart)) with
      | some ud => some ({ p1 with user_data := ud }, t1 + 1)
      | none => none
    else none

def bindSetsLoop (base srvStart samplerStart : Nat) (p : PipelineCache)
    (tableId : Nat) : List (DescriptorSet × TableFlags) → Option PipelineCache
  | [] => some p
  | (set, table) :: rest => do
    let (p1, t1) ← bindOneSet base srvStart samplerStart p tableId set table
    bindSetsLoop base srvStart samplerStart p1 t1 rest

/-- `bind_descriptor_sets`: with no sets it returns before touching any
state; otherwise it rebinds both heaps of the first set, records the heap
GPU base addresses and stores one table offset per declared table. -/
def bind_descriptor_sets (pipeline : PipelineCache) (layout : PipelineLayout)
    (first_set : Nat) (sets : List DescriptorSet) :
    Option (PipelineCache × List DSCall) :=
  match sets with
  | [] => some (pipeline, [])
  | set0 :: _ =>
    -- `&layout.tables[..first_set]` / `[first_set..]` panic when out of range
    if first_set ≤ layout.tables.length then
      let srvStart := set0.srv_cbv_uav_gpu_start
      let samplerStart := set0.sampler_gpu_start
      let p0 := { pipeline with
                    srv_cbv_uav_start := srvStart, sampler_start := samplerStart }
      let tableId0 := (layout.tables.take first_set).foldl
        (fun acc t => (acc + if t.srv_cbv_uav then 1 else 0) +
          if t.samplers then 1 else 0) 0
      let tableBaseOffset := layout.root_constants.foldl
        (fun sum c => sum + c.hi - c.lo) 0
      match bindSetsLoop tableBaseOffset srvStart samplerStart p0 tableId0
          (sets.zip (layout.tables.drop first_set)) with
      | some p1 =>
        some (p1, [.setDescriptorHeaps set0.heap_srv_cbv_uav set0.heap_samplers])
      | none => none
    else none

/-- C9: binding an empty descriptor-set batch is a no-op — the pipeline
cache (register file, dirty mask, recorded heap starts) is returned
unchanged and no native command is emitted. -/
theorem bind_descriptor_sets_empty_noop (pipeline : PipelineCache)
    (layout : PipelineLayout) (first_set : Nat) :
    bind_descriptor_sets pipeline layout first_set [] = some (pipeline, []) :=
  rfl

/-! ## Resource barriers (`pipeline_barrier`) -/

structure Aspects where
  color : Bool
  depth : Bool
  stencil : Bool
deriving DecidableEq

structure SubresourceRange where
  aspects : Aspects
  levelsLo : Nat
  levelsHi : Nat
  layersLo : Nat
  layersHi : Nat
deriving DecidableEq

/-- The fields of `n::Image` consulted by the recording engine; the
subresource-index computation and full-range construction are metadata of
the externally created image (their code lives outside command.rs), kept
as opaque function fields. -/
structure NImage where
  resource : Nat
  block_dim : Nat × Nat
  bytes_per_block : Nat
  calc_subresource : Nat → Nat → Nat → Nat
  to_subresource_range : Aspects → SubresourceRange

structure NBuffer where
  resource : Nat
  size_in_bytes : Nat

/-- `D3D12_RESOURCE_BARRIER_ALL_SUBRESOURCES`. -/
def ALL_SUBRESOURCES : Nat := 4294967295

/-- `D3D12_RESOURCE_BARRIER_FLAG_NONE`. -/
def BARRIER_FLAG_NONE : Nat := 0

/-- `hal::memory::Barrier`, with abstract resource states as opaque values
(buffer access masks, image (access, layout) pairs). -/
inductive MemoryBarrier where
  | allBuffers
  | allImages
  | buffer (stateStart stateEnd : Nat) (target : NBuffer)
  | image (startAccess startLayout endAccess endLayout : Nat)
      (target : NImage) (range : SubresourceRange)

/-- The three `D3D12_RESOURCE_BARRIER` payloads (null resources as `none`). -/
inductive RawBarrier where
  | transition (flags resource subresource stateBefore stateAfter : Nat)
  | uav (resource : Option Nat)
  | aliasing (resourceBefore resourceAfter : Option Nat)
deriving DecidableEq

inductive NativeBarrierCall where
  | resourceBarrier (batch : List RawBarrier)
deriving DecidableEq

/-- Translation of one abstract barrier, parameterized over the state
conversions `conv::map_buffer_resource_state` / `map_image_resource_state`
(defined outside command.rs). -/
def translate_barrier (mapB : Nat → Nat) (mapI : Nat → Nat → Nat) :
    MemoryBarrier → List RawBarrier
  | .allBuffers => [.uav none]
  | .allImages => [.uav none]
  | .buffer s e target =>
    if mapB s = mapB e then []
    else [.transition BARRIER_FLAG_NONE target.resource ALL_SUBRESOURCES (mapB s) (mapB e)]
  | .image sa sl ea el target range =>
    if mapI sa sl = mapI ea el then []
    else if range = target.to_subresource_range range.aspects then
      [.transition BARRIER_FLAG_NONE target.resource ALL_SUBRESOURCES
        (mapI sa sl) (mapI ea el)]
    else
      (List.range' range.levelsLo (range.levelsHi - range.levelsLo)).flatMap
        (fun level =>
          (List.range' range.layersLo (range.layersHi - range.layersLo)).map
            (fun layer =>
              .transition BARRIER_FLAG_NONE target.resource
                (target.calc_subresource level layer 0)
                (mapI sa sl) (mapI ea el)))

/-- `pipeline_barrier`: accumulates the translated input barriers, appends
one global UAV barrier and one global aliasing barrier, and submits the
batch in a single `ResourceBarrier` call. -/
def pipeline_barrier (mapB : Nat → Nat) (mapI : Nat → Nat → Nat)
    (barriers : List MemoryBarrier) : List NativeBarrierCall :=
  let raw1 := barriers.foldl
    (fun acc b => acc ++ translate_barrier mapB mapI b) []
  let raw2 := raw1 ++ [.uav none]
  let raw3 := raw2 ++ [.aliasing none none]
  [.resourceBarrier raw3]

def isAliasingBar : RawBarrier → Bool
  | .aliasing _ _ => true
  | _ => false

def isNullUavBar : RawBarrier → Bool
  | .uav none => true
  | _ => false

/-- `AllBuffers`/`AllImages` inputs (translated to global UAV barriers). -/
def isGlobalInput : MemoryBarrier → Bool
  | .allBuffers => true
  | .allImages => true
  | _ => false

theorem foldl_append_eq_flatMap {α β : Type} (f : α → List β) (l : List α)
    (acc : List β) :
    l.foldl (fun a b => a ++ f b) acc = acc ++ l.flatMap f := by
  induction l generalizing acc with
  | nil => simp
  | cons x xs ih => simp [ih, List.append_assoc]

theorem translate_barrier_no_aliasing (mapB : Nat → Nat) (mapI : Nat → Nat → Nat)
    (b : MemoryBarrier) :
    (translate_barrier mapB mapI b).countP isAliasingBar = 0 := by
  rw [List.countP_eq_zero]
  intro a ha
  cases b with
  | allBuffers => simp [translate_barrier] at ha; subst ha; simp [isAliasingBar]
  | allImages => simp [translate_barrier] at ha; subst ha; simp [isAliasingBar]
  | buffer s e target =>
    simp only [translate_barrier] at ha
    split at ha
    · simp at ha
    · simp at ha; subst ha; simp [isAliasingBar]
  | image sa sl ea el target range =>
    simp only [translate_barrier] at ha
    split at ha
    · simp at ha
    · split at ha
      · simp at ha; subst ha; simp [isAliasingBar]
      · simp only [List.mem_flatMap, List.mem_map] at ha
        obtain ⟨lv, _, ly, _, hb⟩ := ha
        subst hb; simp [isAliasingBar]

theorem translate_barrier_null_uav (mapB : Nat → Nat) (mapI : Nat → Nat → Nat)
    (b : MemoryBarrier) :
    (translate_barrier mapB mapI b).countP isNullUavBar =
      if isGlobalInput b then 1 else 0 := by
  cases b with
  | allBuffers => simp [translate_barrier, isGlobalInput, isNullUavBar]
  | allImages => simp [translate_barrier, isGlobalInput, isNullUavBar]
  | buffer s e target =>
    simp only [translate_barrier, isGlobalInput]
    split
    · simp
    · simp [isNullUavBar]
  | image sa sl ea el target range =>
    simp only [translate_barrier, isGlobalInput]
    split
    · simp
    · split
      · simp [isNullUavBar]
      · rw [if_neg (by simp), List.countP_eq_zero]
        intro a ha
        simp only [List.mem_flatMap, List.mem_map] at ha
        obtain ⟨lv, _, ly, _, hb⟩ := ha
        subst hb; simp [isNullUavBar]

theorem countP_flatMap_translate (mapB : Nat → Nat) (mapI : Nat → Nat → Nat)
    (p : RawBarrier → Bool) (q : MemoryBarrier → Bool) (barriers : List MemoryBarrier)
    (h : ∀ b, (translate_barrier mapB mapI b).countP p = if q b then 1 else 0) :
    (barriers.flatMap (translate_barrier mapB mapI)).countP p = barriers.countP q := by
  induction barriers with
  | nil => simp
  | cons b bs ih =>
    rw [List.flatMap_cons, List.countP_append, ih, h b, List.countP_cons]
    by_cases hq : q b <;> simp [hq] <;> omega

/-- C5: every `pipeline_barrier` call submits exactly one native
`ResourceBarrier` batch; the batch is the translation of the inputs
followed by exactly one appended global (null-resource) UAV barrier and
exactly one appended global aliasing barrier — both present even for an
empty input set.  The aliasing barrier is unique in the whole batch, and
the appended UAV barrier is the only null-resource UAV barrier beyond
those produced by `AllBuffers`/`AllImages` inputs. -/
theorem pipeline_barrier_batch (mapB : Nat → Nat) (mapI : Nat → Nat → Nat)
    (barriers : List MemoryBarrier) :
    ∃ batch, pipeline_barrier mapB mapI barriers = [.resourceBarrier batch] ∧
      batch = barriers.flatMap (translate_barrier mapB mapI) ++
        [.uav none, .aliasing none none] ∧
      batch.countP isAliasingBar = 1 ∧
      batch.countP isNullUavBar = barriers.countP isGlobalInput + 1 := by
  have hflat : barriers.foldl (fun acc b => acc ++ translate_barrier mapB mapI b) []
      = barriers.flatMap (translate_barrier mapB mapI) := by
    rw [foldl_append_eq_flatMap]
    simp
  refine ⟨barriers.flatMap (translate_barrier mapB mapI) ++
    [RawBarrier.uav none, RawBarrier.aliasing none none], ?_, rfl, ?_, ?_⟩
  · simp [pipeline_barrier, hflat]
  · rw [List.countP_append,
      countP_flatMap_translate mapB mapI isAliasingBar (fun _ => false) barriers
        (fun b => by rw [translate_barrier_no_aliasing]; simp)]
    simp [isAliasingBar]
  · rw [List.countP_append,
      countP_flatMap_translate mapB mapI isNullUavBar isGlobalInput barriers
        (translate_barrier_null_uav mapB mapI)]
    simp [isNullUavBar]

/-! ## Lazy materialization (`flush_user_data`) -/

/-- One gather step of the constants loop of `flush_user_data`: reads
registers `cur .. cur+num-1` (substituting 0 for a register that does not
hold a `Constant`) and clears their dirty bits.  An index beyond the
64-entry array is a panic. -/
def gatherRange (ud : UserData) (cur : Nat) : Nat → Option (UserData × List Nat)
  | 0 => some (ud, [])
  | num + 1 =>
    if cur < ROOT_SIGNATURE_SIZE then
      let v := match ud.data.getD cur .undefined with
        | .constant v => v
        | _ => 0
      match gatherRange (ud.clear_dirty cur) (cur + 1) num with
      | some (ud2, vs) => some (ud2, v :: vs)
      | none => none
    else none

/-- The root-constants phase of `flush_user_data`: one
`constants_update(i, data)` call per declared push-constant range, in
declaration order, consuming `range.end - range.start` registers each
(`u32` underflow of the range length is a panic). -/
def flushConstantsLoop (ud : UserData) (rcs : List RootConstant) (i cur : Nat) :
    Option (UserData × List (Nat × List Nat)) :=
  match rcs with
  | [] => some (ud, [])
  | c :: rest =>
    if c.lo ≤ c.hi then
      match gatherRange ud cur (c.hi - c.lo) with
      | some (ud1, vals) =>
        match flushConstantsLoop ud1 rest (i + 1) (cur + (c.hi - c.lo)) with
        | some (ud2, calls) => some (ud2, (i, vals) :: calls)
        | none => none
      | none => none
    else none

/-- The descriptor-table phase of `flush_user_data`: slots
`num_root_constant .. num_parameter_slots-1`, register
`i - num_root_constant + table_start`; a dirty register holding a table
tag produces one `table_update` call and is cleared, a dirty register with
any other tag is logged and skipped without clearing, a clean register is
skipped.  `n` counts the remaining slots. -/
def flushTablesLoop (ud : UserData) (srvStart samplerStart nRC tableStart i : Nat) :
    Nat → Option (UserData × List (Nat × Nat))
  | 0 => some (ud, [])
  | n + 1 =>
    let t := i - nRC + tableStart
    if t < ROOT_SIGNATURE_SIZE then
      if (ud.dirty_mask >>> t) &&& 1 = 1 then
        match ud.data.getD t .undefined with
        | .tableSrvCbvUav off =>
          match flushTablesLoop (ud.clear_dirty t) srvStart samplerStart nRC
              tableStart (i + 1) n with
          | some (ud2, calls) => some (ud2, (i, u64 (srvStart + off)) :: calls)
          | none => none
        | .tableSampler off =>
          match flushTablesLoop (ud.clear_dirty t) srvStart samplerStart nRC
              tableStart (i + 1) n with
          | some (ud2, calls) => some (ud2, (i, u64 (samplerStart + off)) :: calls)
          | none => none
        | _ => flushTablesLoop ud srvStart samplerStart nRC tableStart (i + 1) n
      else flushTablesLoop ud srvStart samplerStart nRC tableStart (i + 1) n
    else none

/-- `flush_user_data(pipeline, constants_update, table_update)`: a no-op
when no register is dirty; otherwise flushes every declared push-constant
range whole, then every dirty occupied table slot.  The writer callbacks
are returned as call lists: `(range index, values)` for the constants
writer and `(slot index, gpu handle)` for the table writer. -/
def flush_user_data (p : PipelineCache) :
    Option (PipelineCache × List (Nat × List Nat) × List (Nat × Nat)) :=
  if p.user_data.dirty_mask = 0 then some (p, [], [])
  else
    match flushConstantsLoop p.user_data p.root_constants 0 0 with
    | some (ud1, ccalls) =>
      let tableStart := p.root_constants.foldl (fun sum c => sum + c.hi - c.lo) 0
      match flushTablesLoop ud1 p.srv_cbv_uav_start p.sampler_start
          p.root_constants.length tableStart p.root_constants.length
          (p.num_parameter_slots - p.root_constants.length) with
      | some (ud2, tcalls) => some ({ p with user_data := ud2 }, ccalls, tcalls)
      | none => none
    | none => none

/-! State-change operations recorded between two flushes. -/

inductive UDOp where
  | setConstants (offset : Nat) (vals : List Nat)
  | setSrvCbvUavTable (offset tableStart : Nat)
  | setSamplerTable (offset tableStart : Nat)

def applyOp (ud : UserData) : UDOp → Option UserData
  | .setConstants offset vals => ud.set_constants offset vals
  | .setSrvCbvUavTable offset ts => ud.set_srv_cbv_uav_table offset ts
  | .setSamplerTable offset ts => ud.set_sampler_table offset ts

def applyOps (ud : UserData) (ops : List UDOp) : Option UserData :=
  ops.foldlM applyOp ud

/-- The registers an operation writes. -/
def writesReg : UDOp → Nat → Bool
  | .setConstants offset vals, r => decide (offset ≤ r) && decide (r < offset + vals.length)
  | .setSrvCbvUavTable offset _, r => decide (r = offset)
  | .setSamplerTable offset _, r => decide (r = offset)

def opsWrite (ops : List UDOp) (r : Nat) : Bool :=
  ops.any (fun op => writesReg op r)

/-- Length of a push-constant range. -/
def rcLen (c : RootConstant) : Nat := c.hi - c.lo

/-- First register of the `i`-th push-constant range (the running
`cur_index` of the constants loop). -/
def constRangeStart (rcs : List RootConstant) (i : Nat) : Nat :=
  ((rcs.take i).map rcLen).sum

/-- The `constants_update` call with range index `call.1` covers register
`r` when `r` lies inside that declared range. -/
def coversConstCall (rcs : List RootConstant) (r : Nat) (call : Nat × List Nat) : Bool :=
  decide (call.1 < rcs.length) && decide (constRangeStart rcs call.1 ≤ r) &&
    decide (r < constRangeStart rcs call.1 + rcLen (rcs.getD call.1 ⟨0, 0⟩))

/-- The `table_update` call with slot index `call.1` covers register
`call.1 - num_root_constant + table_start`. -/
def coversTableCall (nRC tableStart r : Nat) (call : Nat × Nat) : Bool :=
  decide (nRC ≤ call.1) && decide (call.1 - nRC + tableStart = r)

/-- C2 counterexample: with layout `root_constants = [0..1]`,
`num_parameter_slots = 2`, the single recorded operation
`set_srv_cbv_uav_table(1, 5)` never writes register 0, yet the following
flush passes register 0 to the constants writer (the whole declared
constant range is flushed as soon as any register is dirty), refuting
"registers never written since the last flush are never passed to any
writer callback". -/
theorem flush_unwritten_register_passed :
    opsWrite [.setSrvCbvUavTable 1 5] 0 = false ∧
    ((applyOps UserData.new [.setSrvCbvUavTable 1 5]).bind
        (fun ud => flush_user_data ⟨none, 2, [⟨0, 1⟩], ud, 0, 0⟩)).map
      (fun res => (res.2.1.countP (coversConstCall [⟨0, 1⟩] 0), res.2.1)) =
      some (1, [(0, [0])]) := by
  constructor
  · decide
  · decide

theorem countP_congrF {α : Type} (p q : α → Bool) (l : List α)
    (h : ∀ a ∈ l, p a = q a) : l.countP p = l.countP q := by
  induction l with
  | nil => rfl
  | cons x xs ih =>
    rw [List.countP_cons, List.countP_cons, h x (by simp),
      ih (fun a ha => h a (by simp [ha]))]

theorem countP_zeroF {α : Type} (p : α → Bool) (l : List α)
    (h : ∀ a ∈ l, p a = false) : l.countP p = 0 := by
  rw [List.countP_eq_zero]
  intro a ha
  simp [h a ha]

theorem any_congrF {α : Type} (f g : α → Bool) (l : List α)
    (h : ∀ a ∈ l, f a = g a) : l.any f = l.any g := by
  induction l with
  | nil => rfl
  | cons x xs ih =>
    rw [List.any_cons, List.any_cons, h x (by simp),
      ih (fun a ha => h a (by simp [ha]))]

theorem getD_set_eqF {α : Type} (l : List α) (i : Nat) (a d : α)
    (h : i < l.length) : (l.set i a).getD i d = a := by
  simp [List.getD, List.getElem?_set, h]

theorem getD_set_neF {α : Type} (l : List α) (i j : Nat) (a d : α)
    (h : i ≠ j) : (l.set i a).getD j d = l.getD j d := by
  simp [List.getD, List.getElem?_set, h]

/-- Whether a register element is a descriptor-table tag. -/
def isTableTag : RootElement → Bool
  | .tableSrvCbvUav _ => true
  | .tableSampler _ => true
  | _ => false

/-- The total number of root-constant registers (`Σ (hi - lo)`). -/
def sumR (rcs : List RootConstant) : Nat := (rcs.map rcLen).sum

theorem tableStart_fold_eq (rcs : List RootConstant)
    (h : ∀ c ∈ rcs, c.lo ≤ c.hi) :
    rcs.foldl (fun sum c => sum + c.hi - c.lo) 0 = sumR rcs := by
  suffices hgen : ∀ acc, rcs.foldl (fun sum c => sum + c.hi - c.lo) acc = acc + sumR rcs by
    simpa using hgen 0
  induction rcs with
  | nil => intro acc; simp [sumR]
  | cons c rest ih =>
    intro acc
    have hc := h c (by simp)
    rw [List.foldl_cons, ih (fun x hx => h x (by simp [hx]))]
    simp only [sumR, List.map_cons, List.sum_cons, rcLen]
    omega

/-! Properties of the recorded operations. -/

theorem foldl_setc_length (vals : List (Nat × Nat)) (offset : Nat) (ud : UserData) :
    (vals.foldl (fun u iv =>
      UserData.mk (u.data.set (offset + iv.1) (.constant iv.2))
        (u.dirty_mask ||| 1 <<< (offset + iv.1))) ud).data.length = ud.data.length := by
  induction vals generalizing ud with
  | nil => rfl
  | cons v vs ih => rw [List.foldl_cons, ih]; simp

theorem applyOp_length (ud0 ud : UserData) (op : UDOp) (h : applyOp ud0 op = some ud) :
    ud.data.length = ud0.data.length := by
  cases op with
  | setConstants offset vals =>
    simp only [applyOp, UserData.set_constants] at h
    split at h
    · cases h
      exact foldl_setc_length _ _ _
    · cases h
  | setSrvCbvUavTable offset ts =>
    simp only [applyOp, UserData.set_srv_cbv_uav_table] at h
    split at h
    · cases h; simp
    · cases h
  | setSamplerTable offset ts =>
    simp only [applyOp, UserData.set_sampler_table] at h
    split at h
    · cases h; simp
    · cases h

theorem applyOps_length (ops : List UDOp) (ud0 ud : UserData)
    (h : applyOps ud0 ops = some ud) : ud.data.length = ud0.data.length := by
  induction ops generalizing ud0 with
  | nil => cases h; rfl
  | cons op rest ih =>
    simp only [applyOps, List.foldlM_cons] at h
    cases h1 : applyOp ud0 op with
    | none => rw [h1] at h; cases h
    | some ud1 =>
      rw [h1] at h
      exact (ih ud1 (by simpa [applyOps] using h)).trans (applyOp_length ud0 ud1 op h1)

theorem testBit_shift_and (m t : Nat) : ((m >>> t) &&& 1 = 1) ↔ m.testBit t = true := by
  rw [Nat.testBit]
  simp [Nat.and_one_is_mod]

theorem range_any_succ (n : Nat) (f : Nat → Bool) :
    (List.range (n + 1)).any f = (f 0 || (List.range n).any (fun k => f (k + 1))) := by
  rw [List.range_succ_eq_map, List.any_cons, List.any_map]
  rfl

theorem foldl_setc_testBit (vals : List Nat) :
    ∀ (k offset : Nat) (ud : UserData) (r : Nat),
    ((List.enumFrom k vals).foldl (fun u iv =>
        UserData.mk (u.data.set (offset + iv.1) (.constant iv.2))
          (u.dirty_mask ||| 1 <<< (offset + iv.1))) ud).dirty_mask.testBit r =
      (ud.dirty_mask.testBit r ||
        decide (offset + k ≤ r ∧ r < offset + k + vals.length)) := by
  induction vals with
  | nil =>
    intro k offset ud r
    simp
  | cons v vs ih =>
    intro k offset ud r
    rw [List.enumFrom_cons, List.foldl_cons, ih]
    simp only [testBit_lor_shl]
    by_cases h1 : r = offset + k
    · subst h1
      simp only [decide_eq_true_eq]
      have h2 : offset + k ≤ offset + k ∧ offset + k < offset + k + (vs.length + 1) := by omega
      simp [h2]
    · by_cases h2 : offset + (k + 1) ≤ r ∧ r < offset + (k + 1) + vs.length
      · have h3 : offset + k ≤ r ∧ r < offset + k + (vs.length + 1) := by omega
        simp [h2, h3]
      · have h3 : ¬(offset + k ≤ r ∧ r < offset + k + (vs.length + 1)) := by omega
        simp [h1, h2, h3]

theorem foldl_setc_mask_lt (vals : List Nat) :
    ∀ (k offset : Nat) (ud : UserData), ud.dirty_mask < 2 ^ 64 →
    offset + k + vals.length ≤ 64 →
    ((List.enumFrom k vals).foldl (fun u iv =>
        UserData.mk (u.data.set (offset + iv.1) (.constant iv.2))
          (u.dirty_mask ||| 1 <<< (offset + iv.1))) ud).dirty_mask < 2 ^ 64 := by
  induction vals with
  | nil => intro k offset ud h _; simpa using h
  | cons v vs ih =>
    intro k offset ud h hfit
    simp only [List.length_cons] at hfit
    rw [List.enumFrom_cons, List.foldl_cons]
    refine ih (k + 1) offset _ ?_ (by omega)
    refine lor_lt_64 h ?_
    rw [Nat.one_shiftLeft]
    exact Nat.pow_lt_pow_right (by norm_num) (by omega)

theorem foldl_setc_getD (vals : List Nat) :
    ∀ (k offset : Nat) (ud : UserData) (r : Nat) (d : RootElement),
    ¬(offset + k ≤ r ∧ r < offset + k + vals.length) →
    ((List.enumFrom k vals).foldl (fun u iv =>
        UserData.mk (u.data.set (offset + iv.1) (.constant iv.2))
          (u.dirty_mask ||| 1 <<< (offset + iv.1))) ud).data.getD r d =
      ud.data.getD r d := by
  induction vals with
  | nil => intro k offset ud r d _; rfl
  | cons v vs ih =>
    intro k offset ud r d h
    simp only [List.length_cons] at h
    rw [List.enumFrom_cons, List.foldl_cons, ih (k + 1) offset _ r d (by omega)]
    exact getD_set_neF _ _ _ _ _ (by omega)

theorem applyOp_testBit (ud0 ud : UserData) (op : UDOp) (r : Nat)
    (h : applyOp ud0 op = some ud) :
    ud.dirty_mask.testBit r = (writesReg op r || ud0.dirty_mask.testBit r) := by
  cases op with
  | setConstants offset vals =>
    simp only [applyOp, UserData.set_constants] at h
    split at h
    · cases h
      have henum : vals.enum = List.enumFrom 0 vals := rfl
      rw [henum, foldl_setc_testBit vals 0 offset ud0 r]
      simp only [writesReg, Nat.add_zero]
      by_cases h1 : offset ≤ r ∧ r < offset + vals.length
      · simp [h1.1, h1.2]
      · rw [decide_eq_false h1]
        push_neg at h1
        by_cases h2 : offset ≤ r
        · simp [h2, Nat.not_lt.mpr (h1 h2)]
        · simp [h2]
    · cases h
  | setSrvCbvUavTable offset ts =>
    simp only [applyOp, UserData.set_srv_cbv_uav_table] at h
    split at h
    · cases h
      rw [testBit_lor_shl]
      simp [writesReg, Bool.or_comm]
    · cases h
  | setSamplerTable offset ts =>
    simp only [applyOp, UserData.set_sampler_table] at h
    split at h
    · cases h
      rw [testBit_lor_shl]
      simp [writesReg, Bool.or_comm]
    · cases h

theorem applyOp_mask_lt (ud0 ud : UserData) (op : UDOp)
    (h : applyOp ud0 op = some ud) (h0 : ud0.dirty_mask < 2 ^ 64) :
    ud.dirty_mask < 2 ^ 64 := by
  cases op with
  | setConstants offset vals =>
    simp only [applyOp, UserData.set_constants] at h
    split at h
    · cases h
      have hfit : offset + 0 + vals.length ≤ 64 := by
        simp only [ROOT_SIGNATURE_SIZE] at *
        omega
      have henum : vals.enum = List.enumFrom 0 vals := rfl
      rw [henum]
      exact foldl_setc_mask_lt vals 0 offset ud0 h0 hfit
    · cases h
  | setSrvCbvUavTable offset ts =>
    simp only [applyOp, UserData.set_srv_cbv_uav_table, ROOT_SIGNATURE_SIZE] at h
    split at h
    · cases h
      refine lor_lt_64 h0 ?_
      rw [Nat.one_shiftLeft]
      exact Nat.pow_lt_pow_right (by norm_num) (by omega)
    · cases h
  | setSamplerTable offset ts =>
    simp only [applyOp, UserData.set_sampler_table, ROOT_SIGNATURE_SIZE] at h
    split at h
    · cases h
      refine lor_lt_64 h0 ?_
      rw [Nat.one_shiftLeft]
      exact Nat.pow_lt_pow_right (by norm_num) (by omega)
    · cases h

theorem applyOp_getD_ne (ud0 ud : UserData) (op : UDOp) (r : Nat) (d : RootElement)
    (h : applyOp ud0 op = some ud) (hw : writesReg op r = false) :
    ud.data.getD r d = ud0.data.getD r d := by
  cases op with
  | setConstants offset vals =>
    simp only [applyOp, UserData.set_constants] at h
    split at h
    · cases h
      have hw2 : ¬(offset + 0 ≤ r ∧ r < offset + 0 + vals.length) := by
        simp only [writesReg, Bool.and_eq_false_iff, decide_eq_false_iff_not] at hw
        omega
      have henum : vals.enum = List.enumFrom 0 vals := rfl
      rw [henum]
      exact foldl_setc_getD vals 0 offset ud0 r d hw2
    · cases h
  | setSrvCbvUavTable offset ts =>
    simp only [applyOp, UserData.set_srv_cbv_uav_table] at h
    split at h
    · cases h
      simp only [writesReg, decide_eq_false_iff_not] at hw
      exact getD_set_neF _ _ _ _ _ (fun hc => hw hc.symm)
    · cases h
  | setSamplerTable offset ts =>
    simp only [applyOp, UserData.set_sampler_table] at h
    split at h
    · cases h
      simp only [writesReg, decide_eq_false_iff_not] at hw
      exact getD_set_neF _ _ _ _ _ (fun hc => hw hc.symm)
    · cases h

theorem applyOps_testBit (ops : List UDOp) :
    ∀ (ud0 ud : UserData) (r : Nat), applyOps ud0 ops = some ud →
    ud.dirty_mask.testBit r = (opsWrite ops r || ud0.dirty_mask.testBit r) := by
  induction ops with
  | nil =>
    intro ud0 ud r h
    cases h
    simp [opsWrite]
  | cons op rest ih =>
    intro ud0 ud r h
    simp only [applyOps, List.foldlM_cons] at h
    cases h1 : applyOp ud0 op with
    | none => rw [h1] at h; cases h
    | some ud1 =>
      rw [h1] at h
      rw [ih ud1 ud r (by simpa [applyOps] using h), applyOp_testBit ud0 ud1 op r h1]
      simp only [opsWrite, List.any_cons]
      by_cases hb : writesReg op r <;> by_cases hb2 : (rest.any fun o => writesReg o r) <;>
        simp [hb, hb2, opsWrite] at * <;> simp [hb, hb2]

theorem applyOps_mask_lt (ops : List UDOp) :
    ∀ (ud0 ud : UserData), applyOps ud0 ops = some ud →
    ud0.dirty_mask < 2 ^ 64 → ud.dirty_mask < 2 ^ 64 := by
  induction ops with
  | nil => intro ud0 ud h h0; cases h; exact h0
  | cons op rest ih =>
    intro ud0 ud h h0
    simp only [applyOps, List.foldlM_cons] at h
    cases h1 : applyOp ud0 op with
    | none => rw [h1] at h; cases h
    | some ud1 =>
      rw [h1] at h
      exact ih ud1 ud (by simpa [applyOps] using h) (applyOp_mask_lt ud0 ud1 op h1 h0)

theorem applyOps_getD_ne (ops : List UDOp) :
    ∀ (ud0 ud : UserData) (r : Nat) (d : RootElement), applyOps ud0 ops = some ud →
    opsWrite ops r = false → ud.data.getD r d = ud0.data.getD r d := by
  induction ops with
  | nil => intro ud0 ud r d h _; cases h; rfl
  | cons op rest ih =>
    intro ud0 ud r d h hw
    simp only [opsWrite, List.any_cons, Bool.or_eq_false_iff] at hw
    simp only [applyOps, List.foldlM_cons] at h
    cases h1 : applyOp ud0 op with
    | none => rw [h1] at h; cases h
    | some ud1 =>
      rw [h1] at h
      rw [ih ud1 ud r d (by simpa [applyOps] using h) hw.2,
        applyOp_getD_ne ud0 ud1 op r d h1 hw.1]

/-- After a consistent operation sequence, a written table-area register
holds a descriptor-table tag. -/
theorem applyOps_table_tag (ops : List UDOp) :
    ∀ (ud0 ud : UserData) (ts : Nat), applyOps ud0 ops = some ud →
    ud0.data.length = 64 →
    (∀ offset vals, UDOp.setConstants offset vals ∈ ops → offset + vals.length ≤ ts) →
    ∀ r, ts ≤ r → opsWrite ops r = true →
    isTableTag (ud.data.getD r .undefined) = true := by
  induction ops with
  | nil => intro ud0 ud ts _ _ _ r _ hw; simp [opsWrite] at hw
  | cons op rest ih =>
    intro ud0 ud ts h hlen hC r hr hw
    simp only [applyOps, List.foldlM_cons] at h
    cases h1 : applyOp ud0 op with
    | none => rw [h1] at h; cases h
    | some ud1 =>
      rw [h1] at h
      have hrest : applyOps ud1 rest = some ud := by simpa [applyOps] using h
      by_cases hwr : opsWrite rest r
      · exact ih ud1 ud ts hrest (by rw [applyOp_length ud0 ud1 op h1, hlen])
          (fun o v ho => hC o v (by simp [ho])) r hr hwr
      · have hwop : writesReg op r = true := by
          simp only [opsWrite, List.any_cons] at hw
          rcases Bool.or_eq_true_iff.mp hw with h2 | h2
          · exact h2
          · exact absurd h2 (by simpa [opsWrite] using hwr)
        rw [applyOps_getD_ne rest ud1 ud r .undefined hrest (by simpa [opsWrite] using hwr)]
        cases op with
        | setConstants offset vals =>
          exfalso
          have := hC offset vals (by simp)
          simp only [writesReg, Bool.and_eq_true, decide_eq_true_eq] at hwop
          omega
        | setSrvCbvUavTable offset tso =>
          simp only [writesReg, decide_eq_true_eq] at hwop
          subst hwop
          simp only [applyOp, UserData.set_srv_cbv_uav_table, ROOT_SIGNATURE_SIZE] at h1
          split at h1
          · cases h1
            rw [getD_set_eqF _ _ _ _ (by omega)]
            rfl
          · cases h1
        | setSamplerTable offset tso =>
          simp only [writesReg, decide_eq_true_eq] at hwop
          subst hwop
          simp only [applyOp, UserData.set_sampler_table, ROOT_SIGNATURE_SIZE] at h1
          split at h1
          · cases h1
            rw [getD_set_eqF _ _ _ _ (by omega)]
            rfl
          · cases h1

/-! Behaviour of the flush phases. -/

theorem clear_dirty_mask_lt (ud : UserData) (i : Nat) (h : ud.dirty_mask < 2 ^ 64) :
    (ud.clear_dirty i).dirty_mask < 2 ^ 64 :=
  land_le_lt_64 h

theorem gatherRange_spec (num : Nat) :
    ∀ (ud : UserData) (cur : Nat), cur + num ≤ 64 → ud.dirty_mask < 2 ^ 64 →
    ∃ ud2 vs, gatherRange ud cur num = some (ud2, vs) ∧
      ud2.data = ud.data ∧ vs.length = num ∧ ud2.dirty_mask < 2 ^ 64 ∧
      ∀ j, ud2.dirty_mask.testBit j =
        (ud.dirty_mask.testBit j && decide (¬(cur ≤ j ∧ j < cur + num))) := by
  induction num with
  | zero =>
    intro ud cur _ hm
    refine ⟨ud, [], rfl, rfl, rfl, hm, ?_⟩
    intro j
    have : ¬(cur ≤ j ∧ j < cur + 0) := by omega
    simp [this]
  | succ n ih =>
    intro ud cur hfit hm
    have hcur : cur < ROOT_SIGNATURE_SIZE := by
      simp only [ROOT_SIGNATURE_SIZE]; omega
    have hm1 : (ud.clear_dirty cur).dirty_mask < 2 ^ 64 := clear_dirty_mask_lt ud cur hm
    obtain ⟨ud2, vs, hgo, hdata, hlen, hm2, hbit⟩ :=
      ih (ud.clear_dirty cur) (cur + 1) (by omega) hm1
    refine ⟨ud2,
      (match ud.data.getD cur .undefined with | .constant v => v | _ => 0) :: vs,
      ?_, hdata, by simp [hlen], hm2, ?_⟩
    · unfold gatherRange
      rw [if_pos hcur, hgo]
    · intro j
      rw [hbit j]
      show ((ud.dirty_mask &&& not64 (1 <<< cur)).testBit j && _) = _
      rw [testBit_land_not_shl _ _ _ (by simpa [ROOT_SIGNATURE_SIZE] using hcur) hm]
      by_cases h1 : j = cur
      · subst h1
        have : ¬¬(j ≤ j ∧ j < j + (n + 1)) := by omega
        simp_all
      · by_cases h2 : cur + 1 ≤ j ∧ j < cur + 1 + n
        · have h3 : ¬¬(cur ≤ j ∧ j < cur + (n + 1)) := by omega
          simp_all
        · have h3 : ¬(cur ≤ j ∧ j < cur + (n + 1)) := by omega
          simp_all

theorem constRangeStart_cons_succ (c : RootConstant) (rest : List RootConstant)
    (j : Nat) :
    constRangeStart (c :: rest) (j + 1) = rcLen c + constRangeStart rest j := by
  simp [constRangeStart]

theorem sumR_cons (c : RootConstant) (rest : List RootConstant) :
    sumR (c :: rest) = rcLen c + sumR rest := by
  simp [sumR]

/-- The per-call coverage predicate used inside the constants-loop
invariant, relative to starting range index `i0` and register `cur0`. -/
def ccCover (rcs : List RootConstant) (i0 cur0 r : Nat) (call : Nat × List Nat) : Bool :=
  (List.range rcs.length).any (fun jj =>
    decide (call.1 = i0 + jj) && decide (cur0 + constRangeStart rcs jj ≤ r) &&
      decide (r < cur0 + constRangeStart rcs jj + rcLen (rcs.getD jj ⟨0, 0⟩)))

theorem flushConstantsLoop_spec (rcs : List RootConstant) :
    ∀ (ud : UserData) (i0 cur0 : Nat),
    (∀ c ∈ rcs, c.lo ≤ c.hi) → cur0 + sumR rcs ≤ 64 → ud.dirty_mask < 2 ^ 64 →
    ∃ ud2 calls, flushConstantsLoop ud rcs i0 cur0 = some (ud2, calls) ∧
      ud2.data = ud.data ∧ ud2.dirty_mask < 2 ^ 64 ∧
      (∀ call ∈ calls, i0 ≤ call.1) ∧
      (∀ j, ud2.dirty_mask.testBit j =
        (ud.dirty_mask.testBit j && decide (¬(cur0 ≤ j ∧ j < cur0 + sumR rcs)))) ∧
      (∀ r, calls.countP (ccCover rcs i0 cur0 r) =
        if cur0 ≤ r ∧ r < cur0 + sumR rcs then 1 else 0) := by
  induction rcs with
  | nil =>
    intro ud i0 cur0 _ _ hm
    refine ⟨ud, [], rfl, rfl, hm, by simp, ?_, ?_⟩
    · intro j
      have : ¬(cur0 ≤ j ∧ j < cur0 + sumR []) := by
        rw [show sumR [] = 0 from rfl]; omega
      simp [this]
    · intro r
      have : ¬(cur0 ≤ r ∧ r < cur0 + sumR []) := by
        rw [show sumR [] = 0 from rfl]; omega
      simp [this]
  | cons c rest ih =>
    intro ud i0 cur0 hrc hfit hm
    have hc : c.lo ≤ c.hi := hrc c (by simp)
    have hsum := sumR_cons c rest
    have hlenc : c.hi - c.lo = rcLen c := rfl
    obtain ⟨ud1, vals, hg, hgdata, hglen, hgm, hgbit⟩ :=
      gatherRange_spec (c.hi - c.lo) ud cur0 (by rw [hlenc]; omega) hm
    obtain ⟨ud2, calls2, hrec, hrdata, hrm, hridx, hrbit, hrcount⟩ :=
      ih ud1 (i0 + 1) (cur0 + (c.hi - c.lo))
        (fun x hx => hrc x (by simp [hx])) (by rw [hlenc]; omega) hgm
    refine ⟨ud2, (i0, vals) :: calls2, ?_, hrdata.trans hgdata, hrm, ?_, ?_, ?_⟩
    · unfold flushConstantsLoop
      rw [if_pos hc]
      simp only [hg, hrec]
    · intro call hcall
      rcases List.mem_cons.mp hcall with hhd | htl
      · subst hhd; simp
      · exact Nat.le_of_succ_le (hridx call htl)
    · intro j
      rw [hrbit j, hgbit j]
      by_cases h1 : cur0 ≤ j ∧ j < cur0 + sumR (c :: rest)
      · by_cases h2 : j < cur0 + rcLen c
        · have : ¬¬(cur0 ≤ j ∧ j < cur0 + (c.hi - c.lo)) := by rw [hlenc]; omega
          simp_all
        · have h3 : ¬¬(cur0 + (c.hi - c.lo) ≤ j ∧
              j < cur0 + (c.hi - c.lo) + sumR rest) := by
            rw [hlenc]; rw [hsum] at h1; omega
          simp_all
      · have h2 : ¬(cur0 ≤ j ∧ j < cur0 + (c.hi - c.lo)) ∨
            ud.dirty_mask.testBit j = false ∨ True := Or.inr (Or.inr trivial)
        have h3 : ¬(cur0 + (c.hi - c.lo) ≤ j ∧
            j < cur0 + (c.hi - c.lo) + sumR rest) := by
          rw [hlenc]; rw [hsum] at h1; omega
        by_cases h4 : cur0 ≤ j ∧ j < cur0 + (c.hi - c.lo)
        · have : j < cur0 + sumR (c :: rest) := by rw [hsum, ← hlenc] at *; omega
          exact absurd ⟨h4.1, this⟩ h1
        · simp_all
    · intro r
      rw [List.countP_cons]
      have hhd : ccCover (c :: rest) i0 cur0 r (i0, vals) =
          decide (cur0 ≤ r ∧ r < cur0 + rcLen c) := by
        unfold ccCover
        simp only [List.length_cons]
        rw [range_any_succ]
        have h0 : (decide ((i0, vals).1 = i0 + 0) &&
            decide (cur0 + constRangeStart (c :: rest) 0 ≤ r) &&
            decide (r < cur0 + constRangeStart (c :: rest) 0 +
              rcLen ((c :: rest).getD 0 ⟨0, 0⟩))) =
            decide (cur0 ≤ r ∧ r < cur0 + rcLen c) := by
          simp [constRangeStart]
        rw [h0]
        have h1 : ∀ k, (decide ((i0, vals).1 = i0 + (k + 1)) &&
            decide (cur0 + constRangeStart (c :: rest) (k + 1) ≤ r) &&
            decide (r < cur0 + constRangeStart (c :: rest) (k + 1) +
              rcLen ((c :: rest).getD (k + 1) ⟨0, 0⟩))) = false := by
          intro k
          have : ¬(i0 = i0 + (k + 1)) := by omega
          simp [this]
        have h2 : ((List.range rest.length).any fun k =>
            decide ((i0, vals).1 = i0 + (k + 1)) &&
            decide (cur0 + constRangeStart (c :: rest) (k + 1) ≤ r) &&
            decide (r < cur0 + constRangeStart (c :: rest) (k + 1) +
              rcLen ((c :: rest).getD (k + 1) ⟨0, 0⟩))) = false := by
          rw [List.any_eq_false]
          intro k _
          simp [h1 k]
        rw [h2]
        simp
      have htl : calls2.countP (ccCover (c :: rest) i0 cur0 r) =
          calls2.countP (ccCover rest (i0 + 1) (cur0 + (c.hi - c.lo)) r) := by
        refine countP_congrF _ _ _ ?_
        intro call hcall
        have hge : i0 + 1 ≤ call.1 := hridx call hcall
        unfold ccCover
        simp only [List.length_cons]
        rw [range_any_succ]
        have h0 : (decide (call.1 = i0 + 0) &&
            decide (cur0 + constRangeStart (c :: rest) 0 ≤ r) &&
            decide (r < cur0 + constRangeStart (c :: rest) 0 +
              rcLen ((c :: rest).getD 0 ⟨0, 0⟩))) = false := by
          have hne : call.1 ≠ i0 + 0 := by omega
          simp only [decide_eq_false hne, Bool.false_and]
        rw [h0, Bool.false_or]
        apply any_congrF
        intro k _
        rw [constRangeStart_cons_succ]
        have hgd : (c :: rest).getD (k + 1) ⟨0, 0⟩ = rest.getD k ⟨0, 0⟩ := rfl
        rw [hgd, hlenc]
        have he1 : (call.1 = i0 + (k + 1)) ↔ (call.1 = i0 + 1 + k) := by omega
        have he2 : (cur0 + (rcLen c + constRangeStart rest k) ≤ r) ↔
            (cur0 + rcLen c + constRangeStart rest k ≤ r) := by omega
        have he3 : (r < cur0 + (rcLen c + constRangeStart rest k) +
            rcLen (rest.getD k ⟨0, 0⟩)) ↔
            (r < cur0 + rcLen c + constRangeStart rest k +
              rcLen (rest.getD k ⟨0, 0⟩)) := by omega
        rw [decide_eq_decide.mpr he1, decide_eq_decide.mpr he2, decide_eq_decide.mpr he3]
      rw [hhd, htl, hrcount r, hlenc]
      by_cases h1 : cur0 ≤ r ∧ r < cur0 + rcLen c
      · have h2 : ¬(cur0 + rcLen c ≤ r ∧ r < cur0 + rcLen c + sumR rest) := by omega
        have h3 : cur0 ≤ r ∧ r < cur0 + sumR (c :: rest) := by rw [hsum]; omega
        simp [h1, h2, h3]
      · by_cases h2 : cur0 + rcLen c ≤ r ∧ r < cur0 + rcLen c + sumR rest
        · have h3 : cur0 ≤ r ∧ r < cur0 + sumR (c :: rest) := by rw [hsum]; omega
          simp [h1, h2, h3]
        · have h3 : ¬(cur0 ≤ r ∧ r < cur0 + sumR (c :: rest)) := by rw [hsum]; omega
          simp [h1, h2, h3]

/-- Is register `j` one of the table registers handled by `n` loop steps
starting at slot `i0`? -/
def existsSlot (n i0 nRC ts j : Nat) : Bool :=
  (List.range n).any (fun k => decide (j = (i0 + k) - nRC + ts))

theorem existsSlot_succ (n i0 nRC ts j : Nat) :
    existsSlot (n + 1) i0 nRC ts j =
      (decide (j = i0 - nRC + ts) || existsSlot n (i0 + 1) nRC ts j) := by
  unfold existsSlot
  rw [range_any_succ]
  have h0 : (decide (j = (i0 + 0) - nRC + ts)) = decide (j = i0 - nRC + ts) := by
    rw [decide_eq_decide]
    omega
  rw [h0]
  have h1 : ((List.range n).any fun k => decide (j = (i0 + (k + 1)) - nRC + ts)) =
      (List.range n).any fun k => decide (j = (i0 + 1 + k) - nRC + ts) := by
    apply any_congrF
    intro k _
    rw [decide_eq_decide]
    omega
  rw [h1]

theorem flushTablesLoop_spec (n : Nat) :
    ∀ (ud : UserData) (srvS sampS nRC ts i0 : Nat),
    nRC ≤ i0 → (i0 - nRC + ts) + n ≤ 64 → ud.dirty_mask < 2 ^ 64 →
    (∀ k, k < n → ud.dirty_mask.testBit ((i0 + k) - nRC + ts) = true →
      isTableTag (ud.data.getD ((i0 + k) - nRC + ts) .undefined) = true) →
    ∃ ud2 calls, flushTablesLoop ud srvS sampS nRC ts i0 n = some (ud2, calls) ∧
      ud2.data = ud.data ∧ ud2.dirty_mask < 2 ^ 64 ∧
      (∀ j, ud2.dirty_mask.testBit j =
        (ud.dirty_mask.testBit j && !existsSlot n i0 nRC ts j)) ∧
      (∀ r, calls.countP (coversTableCall nRC ts r) =
        if (existsSlot n i0 nRC ts r && ud.dirty_mask.testBit r) = true then 1 else 0) := by
  induction n with
  | zero =>
    intro ud srvS sampS nRC ts i0 _ _ hm _
    refine ⟨ud, [], rfl, rfl, hm, ?_, ?_⟩
    · intro j
      simp [existsSlot]
    · intro r
      simp [existsSlot]
  | succ n ih =>
    intro ud srvS sampS nRC ts i0 hge hfit hm htag
    have ht64 : i0 - nRC + ts < ROOT_SIGNATURE_SIZE := by
      simp only [ROOT_SIGNATURE_SIZE]; omega
    have htshape : ∀ k, (i0 + (k + 1)) - nRC + ts = (i0 - nRC + ts) + (k + 1) := by
      intro k; omega
    by_cases hdirty : ud.dirty_mask.testBit (i0 - nRC + ts) = true
    · have hshift : (ud.dirty_mask >>> (i0 - nRC + ts)) &&& 1 = 1 :=
        (testBit_shift_and _ _).mpr hdirty
      have htag0 : isTableTag (ud.data.getD (i0 - nRC + ts) .undefined) = true := by
        have := htag 0 (by omega)
        simp only [Nat.add_zero] at this
        exact this hdirty
      have hrecall : ∀ (udN : UserData), udN.data = ud.data →
          udN.dirty_mask < 2 ^ 64 →
          (∀ j, udN.dirty_mask.testBit j =
            (ud.dirty_mask.testBit j && decide (j ≠ i0 - nRC + ts))) →
          ∀ k, k < n → udN.dirty_mask.testBit ((i0 + 1 + k) - nRC + ts) = true →
            isTableTag (udN.data.getD ((i0 + 1 + k) - nRC + ts) .undefined) = true := by
        intro udN hdata hmN hbitN k hk hbit
        rw [hbitN] at hbit
        have hb := (Bool.and_eq_true_iff.mp hbit).1
        rw [hdata]
        have h1 : (i0 + 1 + k) - nRC + ts = (i0 + (k + 1)) - nRC + ts := by omega
        rw [h1]
        rw [h1] at hb
        exact htag (k + 1) (by omega) hb
      cases hval : ud.data.getD (i0 - nRC + ts) .undefined with
      | constant v => rw [hval] at htag0; cases htag0
      | undefined => rw [hval] at htag0; cases htag0
      | tableSrvCbvUav off =>
        have hclbit : ∀ j, (ud.clear_dirty (i0 - nRC + ts)).dirty_mask.testBit j =
            (ud.dirty_mask.testBit j && decide (j ≠ i0 - nRC + ts)) := by
          intro j
          exact testBit_land_not_shl _ _ _ (by simpa [ROOT_SIGNATURE_SIZE] using ht64) hm
        obtain ⟨ud2, calls2, hrec, hrdata, hrm, hrbit, hrcount⟩ :=
          ih (ud.clear_dirty (i0 - nRC + ts)) srvS sampS nRC ts (i0 + 1)
            (by omega) (by omega) (clear_dirty_mask_lt _ _ hm)
            (hrecall _ rfl (clear_dirty_mask_lt _ _ hm) hclbit)
        refine ⟨ud2, (i0, u64 (srvS + off)) :: calls2, ?_, hrdata, hrm, ?_, ?_⟩
        · unfold flushTablesLoop
          rw [if_pos ht64, if_pos hshift]
          simp only [hval, hrec]
        · intro j
          rw [hrbit j, hclbit j, existsSlot_succ]
          by_cases h1 : j = i0 - nRC + ts
          · simp [h1]
          · simp [h1]
        · intro r
          rw [List.countP_cons, hrcount r, hclbit r, existsSlot_succ]
          have hhd : coversTableCall nRC ts r (i0, u64 (srvS + off)) =
              decide (r = i0 - nRC + ts) := by
            unfold coversTableCall
            have hp : ((i0, u64 (srvS + off)) : Nat × Nat).1 = i0 := rfl
            rw [hp, decide_eq_true hge, Bool.true_and, decide_eq_decide.mpr
              (show (i0 - nRC + ts = r) ↔ (r = i0 - nRC + ts) by omega)]
          rw [hhd]
          by_cases hr : r = i0 - nRC + ts
          · subst hr
            simp [hdirty]
          · simp [hr]
      | tableSampler off =>
        have hclbit : ∀ j, (ud.clear_dirty (i0 - nRC + ts)).dirty_mask.testBit j =
            (ud.dirty_mask.testBit j && decide (j ≠ i0 - nRC + ts)) := by
          intro j
          exact testBit_land_not_shl _ _ _ (by simpa [ROOT_SIGNATURE_SIZE] using ht64) hm
        obtain ⟨ud2, calls2, hrec, hrdata, hrm, hrbit, hrcount⟩ :=
          ih (ud.clear_dirty (i0 - nRC + ts)) srvS sampS nRC ts (i0 + 1)
            (by omega) (by omega) (clear_dirty_mask_lt _ _ hm)
            (hrecall _ rfl (clear_dirty_mask_lt _ _ hm) hclbit)
        refine ⟨ud2, (i0, u64 (sampS + off)) :: calls2, ?_, hrdata, hrm, ?_, ?_⟩
        · unfold flushTablesLoop
          rw [if_pos ht64, if_pos hshift]
          simp only [hval, hrec]
        · intro j
          rw [hrbit j, hclbit j, existsSlot_succ]
          by_cases h1 : j = i0 - nRC + ts
          · simp [h1]
          · simp [h1]
        · intro r
          rw [List.countP_cons, hrcount r, hclbit r, existsSlot_succ]
          have hhd : coversTableCall nRC ts r (i0, u64 (sampS + off)) =
              decide (r = i0 - nRC + ts) := by
            unfold coversTableCall
            have hp : ((i0, u64 (sampS + off)) : Nat × Nat).1 = i0 := rfl
            rw [hp, decide_eq_true hge, Bool.true_and, decide_eq_decide.mpr
              (show (i0 - nRC + ts = r) ↔ (r = i0 - nRC + ts) by omega)]
          rw [hhd]
          by_cases hr : r = i0 - nRC + ts
          · subst hr
            simp [hdirty]
          · simp [hr]
    · have hdirty2 : ud.dirty_mask.testBit (i0 - nRC + ts) = false := by
        simpa using hdirty
      have hshift : ¬((ud.dirty_mask >>> (i0 - nRC + ts)) &&& 1 = 1) := by
        intro hc
        exact hdirty ((testBit_shift_and _ _).mp hc)
      obtain ⟨ud2, calls2, hrec, hrdata, hrm, hrbit, hrcount⟩ :=
        ih ud srvS sampS nRC ts (i0 + 1) (by omega) (by omega) hm
          (by
            intro k hk hbit
            have h1 : (i0 + 1 + k) - nRC + ts = (i0 + (k + 1)) - nRC + ts := by omega
            rw [h1] at hbit ⊢
            exact htag (k + 1) (by omega) hbit)
      refine ⟨ud2, calls2, ?_, hrdata, hrm, ?_, ?_⟩
      · unfold flushTablesLoop
        rw [if_pos ht64, if_neg hshift]
        exact hrec
      · intro j
        rw [hrbit j, existsSlot_succ]
        by_cases h1 : j = i0 - nRC + ts
        · subst h1
          simp [hdirty2]
        · simp [h1]
      · intro r
        rw [hrcount r, existsSlot_succ]
        by_cases h1 : r = i0 - nRC + ts
        · subst h1
          simp [hdirty2]
        · simp [h1]

theorem existsSlot_eq_true_iff (n i0 nRC ts j : Nat) :
    existsSlot n i0 nRC ts j = true ↔ ∃ k, k < n ∧ j = (i0 + k) - nRC + ts := by
  unfold existsSlot
  simp [List.any_eq_true, List.mem_range]

theorem ccCover_zero (rcs : List RootConstant) (r : Nat) (call : Nat × List Nat) :
    ccCover rcs 0 0 r call = coversConstCall rcs r call := by
  rw [Bool.eq_iff_iff]
  unfold ccCover coversConstCall
  simp only [List.any_eq_true, List.mem_range, Bool.and_eq_true, decide_eq_true_eq,
    Nat.zero_add]
  constructor
  · rintro ⟨jj, hjj, ⟨hca, hlow⟩, hup⟩
    subst hca
    exact ⟨⟨hjj, hlow⟩, hup⟩
  · rintro ⟨⟨hlt, hlow⟩, hup⟩
    exact ⟨call.1, hlt, ⟨rfl, hlow⟩, hup⟩

/-- Registers a consistent operation sequence can write lie either in the
constants area or among the occupied table slots. -/
theorem opsWrite_range (ops : List UDOp) (r ts nslots : Nat)
    (hopsC : ∀ offset vals, UDOp.setConstants offset vals ∈ ops →
      offset + vals.length ≤ ts)
    (hopsT : ∀ op ∈ ops, ∀ offset ts2,
      (op = UDOp.setSrvCbvUavTable offset ts2 ∨ op = UDOp.setSamplerTable offset ts2) →
      ts ≤ offset ∧ offset < ts + nslots)
    (hw : opsWrite ops r = true) :
    r < ts ∨ (ts ≤ r ∧ r < ts + nslots) := by
  unfold opsWrite at hw
  obtain ⟨op, hop, hwrite⟩ := List.any_eq_true.mp hw
  cases op with
  | setConstants offset vals =>
    have := hopsC offset vals hop
    simp only [writesReg, Bool.and_eq_true, decide_eq_true_eq] at hwrite
    omega
  | setSrvCbvUavTable offset ts2 =>
    have := hopsT _ hop offset ts2 (Or.inl rfl)
    simp only [writesReg, decide_eq_true_eq] at hwrite
    omega
  | setSamplerTable offset ts2 =>
    have := hopsT _ hop offset ts2 (Or.inr rfl)
    simp only [writesReg, decide_eq_true_eq] at hwrite
    omega

/-- C2 (amended): starting from a flushed state (`dirty_mask = 0`), after
any sequence of `set_constants` / `set_srv_cbv_uav_table` /
`set_sampler_table` calls that target registers covered by the pipeline
layout (constants within the declared ranges' area, tables at occupied
table slots), `flush_user_data` succeeds and
(a) every written register has its dirty bit cleared,
(b) every written register is passed to exactly one writer callback,
(c) a table register never written is never passed to the table writer,
(d) once anything is dirty every declared constant range is flushed whole,
    so an unwritten constant register is still passed (the deviation from
    the claim as stated), and
(e) with no written register the flush is a complete no-op. -/
theorem flush_after_ops_spec
    (p0 : PipelineCache) (ops : List UDOp) (ud : UserData)
    (hclean : p0.user_data.dirty_mask = 0)
    (hlen : p0.user_data.data.length = 64)
    (hrc : ∀ c ∈ p0.root_constants, c.lo ≤ c.hi)
    (hfit : sumR p0.root_constants +
      (p0.num_parameter_slots - p0.root_constants.length) ≤ 64)
    (hopsC : ∀ offset vals, UDOp.setConstants offset vals ∈ ops →
      offset + vals.length ≤ sumR p0.root_constants)
    (hopsT : ∀ op ∈ ops, ∀ offset ts2,
      (op = UDOp.setSrvCbvUavTable offset ts2 ∨ op = UDOp.setSamplerTable offset ts2) →
      sumR p0.root_constants ≤ offset ∧
        offset < sumR p0.root_constants +
          (p0.num_parameter_slots - p0.root_constants.length))
    (happly : applyOps p0.user_data ops = some ud) :
    ∃ p2 ccalls tcalls,
      flush_user_data { p0 with user_data := ud } = some (p2, ccalls, tcalls) ∧
      (∀ r, opsWrite ops r = true → p2.user_data.dirty_mask.testBit r = false) ∧
      (∀ r, opsWrite ops r = true →
        ccalls.countP (coversConstCall p0.root_constants r) +
          tcalls.countP (coversTableCall p0.root_constants.length
            (sumR p0.root_constants) r) = 1) ∧
      (∀ r, sumR p0.root_constants ≤ r → opsWrite ops r = false →
        tcalls.countP (coversTableCall p0.root_constants.length
          (sumR p0.root_constants) r) = 0) ∧
      ((∃ w, opsWrite ops w = true) →
        ∀ r, r < sumR p0.root_constants →
          ccalls.countP (coversConstCall p0.root_constants r) = 1) ∧
      ((∀ r, opsWrite ops r = false) →
        p2 = { p0 with user_data := ud } ∧ ccalls = [] ∧ tcalls = []) := by
  have hm0 : p0.user_data.dirty_mask < 2 ^ 64 := by rw [hclean]; norm_num
  have hmu : ud.dirty_mask < 2 ^ 64 := applyOps_mask_lt ops p0.user_data ud happly hm0
  have hbit : ∀ r, ud.dirty_mask.testBit r = opsWrite ops r := by
    intro r
    rw [applyOps_testBit ops p0.user_data ud r happly, hclean]
    simp
  by_cases hnw : ∀ r, opsWrite ops r = false
  · have hzero : ud.dirty_mask = 0 := by
      apply Nat.zero_of_testBit_eq_false
      intro i
      rw [hbit i, hnw i]
    have hflush : flush_user_data { p0 with user_data := ud } =
        some ({ p0 with user_data := ud }, [], []) := by
      unfold flush_user_data
      rw [if_pos hzero]
    refine ⟨{ p0 with user_data := ud }, [], [], hflush, ?_, ?_, ?_, ?_, ?_⟩
    · intro r hr
      rw [hnw r] at hr
      cases hr
    · intro r hr
      rw [hnw r] at hr
      cases hr
    · intro r _ _
      simp
    · rintro ⟨w, hww⟩
      rw [hnw w] at hww
      cases hww
    · intro _
      exact ⟨rfl, rfl, rfl⟩
  · push_neg at hnw
    obtain ⟨w, hww⟩ := hnw
    have hwww : opsWrite ops w = true := by
      cases hb : opsWrite ops w
      · exact absurd hb hww
      · rfl
    have hne : ud.dirty_mask ≠ 0 := by
      intro hc
      rw [← hbit w, hc] at hwww
      simp at hwww
    obtain ⟨ud1, ccalls, hcl, hcdata, hcm, hcidx, hcbit, hccount⟩ :=
      flushConstantsLoop_spec p0.root_constants ud 0 0 hrc (by omega) hmu
    have hts : p0.root_constants.foldl (fun sum c => sum + c.hi - c.lo) 0 =
        sumR p0.root_constants := tableStart_fold_eq p0.root_constants hrc
    have hud1bit : ∀ r, sumR p0.root_constants ≤ r →
        ud1.dirty_mask.testBit r = opsWrite ops r := by
      intro r hr
      rw [hcbit r, hbit r]
      have hthis : decide (¬(0 ≤ r ∧ r < 0 + sumR p0.root_constants)) = true := by
        rw [decide_eq_true_eq]
        omega
      rw [hthis, Bool.and_true]
    obtain ⟨ud2, tcalls, htl, htdata, htm, htbit, htcount⟩ :=
      flushTablesLoop_spec (p0.num_parameter_slots - p0.root_constants.length)
        ud1 p0.srv_cbv_uav_start p0.sampler_start p0.root_constants.length
        (sumR p0.root_constants) p0.root_constants.length
        (le_refl _) (by omega) hcm
        (by
          intro k hk hbitk
          have hidx : (p0.root_constants.length + k) - p0.root_constants.length +
              sumR p0.root_constants = sumR p0.root_constants + k := by omega
          rw [hidx] at hbitk ⊢
          rw [hcdata]
          have hwk : opsWrite ops (sumR p0.root_constants + k) = true := by
            rw [← hud1bit _ (by omega)]
            exact hbitk
          exact applyOps_table_tag ops p0.user_data ud (sumR p0.root_constants)
            happly hlen hopsC _ (by omega) hwk)
    have hflush : flush_user_data { p0 with user_data := ud } =
        some ({ p0 with user_data := ud2 }, ccalls, tcalls) := by
      unfold flush_user_data
      rw [if_neg hne]
      simp only [hcl, hts, htl]
    refine ⟨{ p0 with user_data := ud2 }, ccalls, tcalls, hflush, ?_, ?_, ?_, ?_, ?_⟩
    · -- (a) dirty bits of written registers are cleared
      intro r hr
      show ud2.dirty_mask.testBit r = false
      rw [htbit r, hcbit r]
      rcases opsWrite_range ops r (sumR p0.root_constants)
          (p0.num_parameter_slots - p0.root_constants.length) hopsC hopsT hr with
        hlo | ⟨hge, hlt⟩
      · have : ¬¬(0 ≤ r ∧ r < 0 + sumR p0.root_constants) := by omega
        simp_all
      · have hslot : existsSlot (p0.num_parameter_slots - p0.root_constants.length)
            p0.root_constants.length p0.root_constants.length
            (sumR p0.root_constants) r = true := by
          rw [existsSlot_eq_true_iff]
          exact ⟨r - sumR p0.root_constants, by omega, by omega⟩
        rw [hslot]
        simp
    · -- (b) written registers are passed exactly once
      intro r hr
      have hcc := hccount r
      have hcc2 : ccalls.countP (coversConstCall p0.root_constants r) =
          if 0 ≤ r ∧ r < 0 + sumR p0.root_constants then 1 else 0 := by
        rw [← hcc]
        apply countP_congrF
        intro call _
        rw [ccCover_zero]
      rcases opsWrite_range ops r (sumR p0.root_constants)
          (p0.num_parameter_slots - p0.root_constants.length) hopsC hopsT hr with
        hlo | ⟨hge, hlt⟩
      · have h1 : (0 ≤ r ∧ r < 0 + sumR p0.root_constants) := by omega
        rw [hcc2, if_pos h1]
        have h2 : tcalls.countP (coversTableCall p0.root_constants.length
            (sumR p0.root_constants) r) = 0 := by
          apply countP_zeroF
          intro call _
          unfold coversTableCall
          rcases Nat.lt_or_ge call.1 p0.root_constants.length with hc | hc
          · simp [Nat.not_le.mpr hc]
          · have : ¬(call.1 - p0.root_constants.length + sumR p0.root_constants = r) := by
              omega
            simp [this]
        rw [h2]
      · have h1 : ¬(0 ≤ r ∧ r < 0 + sumR p0.root_constants) := by omega
        rw [hcc2, if_neg h1]
        have hslot : existsSlot (p0.num_parameter_slots - p0.root_constants.length)
            p0.root_constants.length p0.root_constants.length
            (sumR p0.root_constants) r = true := by
          rw [existsSlot_eq_true_iff]
          exact ⟨r - sumR p0.root_constants, by omega, by omega⟩
        rw [htcount r, hslot, hud1bit r hge, hr]
        simp
    · -- (c) unwritten table registers are never passed to the table writer
      intro r hge hr
      rw [htcount r, hud1bit r hge, hr]
      simp
    · -- (d) whole constant ranges are flushed
      intro _ r hrlt
      have hcc := hccount r
      rw [← countP_congrF _ _ ccalls (fun call _ => (ccCover_zero p0.root_constants r call).symm)] at hcc
      rw [hcc, if_pos (by omega)]
    · -- (e) contradicts the writing witness
      intro hall
      rw [hall w] at hwww
      cases hwww

/-- Concrete layout for the C2 witness: one constant range `0..1` and one
occupied table slot. -/
def p0W : PipelineCache := ⟨none, 2, [⟨0, 1⟩], UserData.new, 0, 0⟩

def opsW : List UDOp := [.setConstants 0 [7], .setSrvCbvUavTable 1 9]

def udW : UserData :=
  ⟨((List.replicate 64 RootElement.undefined).set 0 (.constant 7)).set 1
    (.tableSrvCbvUav 9), 3⟩

/-- Witness for C2 (amended) at a concrete layout and operation list. -/
theorem flush_after_ops_spec_witness :
    ∃ p2 ccalls tcalls,
      flush_user_data { p0W with user_data := udW } = some (p2, ccalls, tcalls) ∧
      (∀ r, opsWrite opsW r = true → p2.user_data.dirty_mask.testBit r = false) ∧
      (∀ r, opsWrite opsW r = true →
        ccalls.countP (coversConstCall p0W.root_constants r) +
          tcalls.countP (coversTableCall p0W.root_constants.length
            (sumR p0W.root_constants) r) = 1) ∧
      (∀ r, sumR p0W.root_constants ≤ r → opsWrite opsW r = false →
        tcalls.countP (coversTableCall p0W.root_constants.length
          (sumR p0W.root_constants) r) = 0) ∧
      ((∃ w, opsWrite opsW w = true) →
        ∀ r, r < sumR p0W.root_constants →
          ccalls.countP (coversConstCall p0W.root_constants r) = 1) ∧
      ((∀ r, opsWrite opsW r = false) →
        p2 = { p0W with user_data := udW } ∧ ccalls = [] ∧ tcalls = []) := by
  refine flush_after_ops_spec p0W opsW udW (by decide) (by decide) (by decide)
    (by decide) ?_ ?_ (by decide)
  · intro o v h
    simp only [opsW, List.mem_cons, List.not_mem_nil, or_false] at h
    rcases h with h | h
    · injection h with h1 h2
      subst h1
      subst h2
      decide
    · exact absurd h (by simp)
  · intro op hop offset ts2 hEq
    simp only [opsW, List.mem_cons, List.not_mem_nil, or_false] at hop
    rcases hop with h | h
    · subst h
      rcases hEq with h | h
      · exact absurd h (by simp)
      · exact absurd h (by simp)
    · subst h
      rcases hEq with h | h
      · injection h with h1 h2
        subst h1
        decide
      · exact absurd h (by simp)

/-! ## Render-pass / subpass engine -/

inductive AttachmentLoadOp where
  | load
  | clear
  | dontCare
deriving DecidableEq

inductive AttachmentStoreOp where
  | store
  | dontCare
deriving DecidableEq

structure AttachmentOps where
  load : AttachmentLoadOp
  store : AttachmentStoreOp
deriving DecidableEq

/-- Image layouts (the subset distinguished by the recording engine is
`Present` vs. anything else). -/
inductive ImgLayout where
  | general
  | colorAttachmentOptimal
  | depthStencilAttachmentOptimal
  | depthStencilReadOnlyOptimal
  | shaderReadOnlyOptimal
  | transferSrcOptimal
  | transferDstOptimal
  | undefined
  | preinitialized
  | present
deriving DecidableEq

structure AttachmentDesc where
  ops : AttachmentOps
  stencil_ops : AttachmentOps
deriving DecidableEq

/-- A precomputed subpass barrier (`attachment_id`, flags and the
before/after native state pair). -/
structure ProtoBarrier where
  attachment_id : Nat
  flags : Nat
  statesStart : Nat
  statesEnd : Nat
deriving DecidableEq

structure SubpassDesc where
  color_attachments : List (Nat × ImgLayout)
  depth_stencil_attachment : Option (Nat × ImgLayout)
  input_attachments : List (Nat × ImgLayout)
  pre_barriers : List ProtoBarrier
deriving DecidableEq

/-- Modelled from the spec: `n::SubPass::is_using` (defined outside
command.rs) — whether subpass `sp` references attachment `i` as a color,
depth-stencil or input attachment; an attachment's first use is the first
subpass for which this holds. -/
def SubpassDesc.is_using (sp : SubpassDesc) (i : Nat) : Bool :=
  sp.color_attachments.any (fun a => a.1 == i) ||
    (match sp.depth_stencil_attachment with
      | some a => a.1 == i
      | none => false) ||
    sp.input_attachments.any (fun a => a.1 == i)

structure RenderPassDesc where
  attachments : List AttachmentDesc
  subpasses : List SubpassDesc
  post_barriers : List ProtoBarrier
deriving DecidableEq

/-- The fields of one framebuffer attachment used by the engine. -/
structure FbAttachment where
  resource : Nat
  handle_rtv : Option Nat
  handle_dsv : Option Nat
deriving DecidableEq

structure FramebufferDesc where
  attachments : List FbAttachment
deriving DecidableEq

/-- A raw clear value (the readings of the `ClearValueRaw` union). -/
structure ClearValueRaw where
  color : Nat
  depth : Nat
  stencil : Nat
deriving DecidableEq

structure AttachmentClear where
  subpass_id : Option Nat
  value : Option ClearValueRaw
  stencil_value : Option Nat
deriving DecidableEq

structure RectD : Type where
  x : Nat
  y : Nat
  w : Nat
  h : Nat
deriving DecidableEq

structure RenderPassCache where
  render_pass : RenderPassDesc
  framebuffer : FramebufferDesc
  target_rect : RectD
  attachment_clears : List AttachmentClear
deriving DecidableEq

/-- `usize` `!0`, the out-of-range subpass sentinel of `end_render_pass`. -/
def USIZE_MAX : Nat := 2 ^ 64 - 1

/-! ### `clear_attachments` -/

inductive AttachmentClearCmd where
  | color (index : Nat) (cv : Nat)
  | depthStencil (depth : Option Nat) (stencil : Option Nat)
deriving DecidableEq

inductive ClearCall where
  | clearRtv (handle : Nat) (cv : Nat) (numRects : Nat)
deriving DecidableEq

/-- One iteration of the `clear_attachments` loop: a color clear resolves
the subpass's color attachment and clears its RTV, any other clear kind
hits `unimplemented!()`. -/
def clearOneAttachment (pc : RenderPassCache) (cur_subpass : Nat)
    (rects : List RectD) (acc : List ClearCall) (clear : AttachmentClearCmd) :
    Option (List ClearCall) :=
  match clear with
  | .color index cv =>
    match pc.render_pass.subpasses.get? cur_subpass with
    | none => none
    | some subpass =>
      match subpass.color_attachments.get? index with
      | none => none
      | some (rtvId, _) =>
        match pc.framebuffer.attachments.get? rtvId with
        | none => none
        | some att =>
          match att.handle_rtv with
          | none => none
          | some handle => some (acc ++ [.clearRtv handle cv rects.length])
  | .depthStencil _ _ => none

/-- `clear_attachments`: asserts a render pass is active, then processes
the requested clears in order. -/
def clear_attachments (pass_cache : Option RenderPassCache) (cur_subpass : Nat)
    (clears : List AttachmentClearCmd) (rects : List RectD) :
    Option (List ClearCall) :=
  match pass_cache with
  | none => none
  | some pc => clears.foldlM (clearOneAttachment pc cur_subpass rects) []

theorem clear_attachments_foldlM_ds (clears : List AttachmentClearCmd)
    (pc : RenderPassCache) (cur : Nat) (rects : List RectD) :
    ∀ acc, (∃ d s, AttachmentClearCmd.depthStencil d s ∈ clears) →
    clears.foldlM (clearOneAttachment pc cur rects) acc = none := by
  induction clears with
  | nil =>
    rintro acc ⟨d, s, hmem⟩
    cases hmem
  | cons c rest ih =>
    rintro acc ⟨d, s, hmem⟩
    rw [List.foldlM_cons]
    cases hh : clearOneAttachment pc cur rects acc c with
    | none => rfl
    | some acc2 =>
      have hbind : (some acc2 >>= fun a => rest.foldlM (clearOneAttachment pc cur rects) a) =
          rest.foldlM (clearOneAttachment pc cur rects) acc2 := rfl
      rw [hbind]
      rcases List.mem_cons.mp hmem with hhd | htl
      · rw [← hhd] at hh
        cases hh
      · exact ih acc2 ⟨d, s, htl⟩

/-- C10: `clear_attachments` aborts when no render pass is active, and —
inside a render pass — aborts on any depth/stencil attachment clear
rather than ignoring it. -/
theorem clear_attachments_aborts (cur_subpass : Nat)
    (clears : List AttachmentClearCmd) (rects : List RectD) :
    (clear_attachments none cur_subpass clears rects = none) ∧
    (∀ pc : RenderPassCache, (∃ d s, AttachmentClearCmd.depthStencil d s ∈ clears) →
      clear_attachments (some pc) cur_subpass clears rects = none) := by
  constructor
  · rfl
  · intro pc hds
    unfold clear_attachments
    exact clear_attachments_foldlM_ds clears pc cur_subpass rects [] hds

/-- Witness for C10: a depth-stencil clear inside an active pass aborts. -/
theorem clear_attachments_aborts_witness :
    clear_attachments
      (some ⟨⟨[], [], []⟩, ⟨[]⟩, ⟨0, 0, 1, 1⟩, []⟩) 0
      [.depthStencil (some 1) none] [] = none :=
  (clear_attachments_aborts 0 [.depthStencil (some 1) none] []).2
    ⟨⟨[], [], []⟩, ⟨[]⟩, ⟨0, 0, 1, 1⟩, []⟩ ⟨some 1, none, by simp⟩

/-! ### Render-pass recording (`begin_render_pass_raw` / `next_subpass` /
`end_render_pass`) -/

/-- Events of the render-pass engine.  A `barrierBatch` event is one run
of `insert_subpass_barriers` (the native `ResourceBarrier` call is issued
iff the batch is nonempty); clear events are tagged with the attachment
index and the subpass at which they fire. -/
inductive RPEvent where
  | barrierBatch (batch : List RawBarrier)
  | setRenderTargets (numColors : Nat) (hasDs : Bool)
  | clearColor (att : Nat) (subpass : Nat)
  | clearDepthStencil (att : Nat) (subpass : Nat) (hasDepth hasStencil : Bool)
deriving DecidableEq

structure RPState where
  pass_cache : Option RenderPassCache
  cur_subpass : Nat
deriving DecidableEq

/-- Translation of a proto-barrier list against the framebuffer's
attachment resources. -/
def translateProtoBarriers (pc : RenderPassCache) (protos : List ProtoBarrier) :
    Option (List RawBarrier) :=
  protos.mapM (fun b =>
    match pc.framebuffer.attachments.get? b.attachment_id with
    | some att => some (RawBarrier.transition b.flags att.resource
        ALL_SUBRESOURCES b.statesStart b.statesEnd)
    | none => none)

/-- `insert_subpass_barriers`: the current subpass's pre-barriers (or the
render pass's post-barriers once past the last subpass) are translated
against the framebuffer's attachment resources. -/
def insert_subpass_barriers (pc : RenderPassCache) (cur : Nat) :
    Option RPEvent :=
  match translateProtoBarriers pc
      (match pc.render_pass.subpasses.get? cur with
        | some subpass => subpass.pre_barriers
        | none => pc.render_pass.post_barriers) with
  | some batch => some (.barrierBatch batch)
  | none => none

/-- The clear events `bind_targets` issues for one `(attachment, clear)`
pair at subpass `cur`. -/
def clearEventsFor (cur idx : Nat) (view : FbAttachment) (clear : AttachmentClear) :
    List RPEvent :=
  if clear.subpass_id ≠ some cur then []
  else
    (match view.handle_rtv, clear.value with
      | some _, some _ => [RPEvent.clearColor idx cur]
      | _, _ => []) ++
    (match view.handle_dsv with
      | some _ =>
        if ((clear.value.map ClearValueRaw.depth).isSome || clear.stencil_value.isSome) then
          [RPEvent.clearDepthStencil idx cur (clear.value.map ClearValueRaw.depth).isSome
            clear.stencil_value.isSome]
        else []
      | none => [])

/-- The depth-stencil view resolution of `bind_targets`
(`handle_dsv.as_ref().unwrap()`): `some true` when a depth-stencil
attachment is present and resolvable, `some false` when absent. -/
def resolveDs (pc : RenderPassCache) (subpass : SubpassDesc) : Option Bool :=
  match subpass.depth_stencil_attachment with
  | some a =>
    match pc.framebuffer.attachments.get? a.1 with
    | some att =>
      match att.handle_dsv with
      | some _ => some true
      | none => none
    | none => none
  | none => some false

/-- `bind_targets`: binds the subpass's color/depth targets, then issues
the clears of every attachment whose first use is the current subpass. -/
def bind_targets (pc : RenderPassCache) (cur : Nat) : Option (List RPEvent) :=
  match pc.render_pass.subpasses.get? cur with
  | none => none
  | some subpass =>
    match subpass.color_attachments.mapM (fun a =>
        match pc.framebuffer.attachments.get? a.1 with
        | some att => att.handle_rtv
        | none => none) with
    | none => none
    | some colorViews =>
      match resolveDs pc subpass with
      | none => none
      | some hasDs =>
        some (RPEvent.setRenderTargets colorViews.length hasDs ::
          (pc.framebuffer.attachments.zip pc.attachment_clears).enum.flatMap
            (fun ivc => clearEventsFor cur ivc.1 ivc.2.1 ivc.2.2))

/-- The clear plan built by `begin_render_pass_raw`: one external clear
value is consumed per attachment whose (color or stencil) load op is
`Clear`; the recorded first-use subpass is the first subpass using the
attachment. -/
def attachmentClearsOf (rp : RenderPassDesc) :
    List (Nat × AttachmentDesc) → List ClearValueRaw → Option (List AttachmentClear)
  | [], _ => some []
  | (i, att) :: rest, cvs =>
    if att.ops.load = .clear ∨ att.stencil_ops.load = .clear then
      match cvs with
      | [] => none
      | cv :: cvs2 =>
        match attachmentClearsOf rp rest cvs2 with
        | some clears =>
          some (⟨rp.subpasses.findIdx? (fun sp => sp.is_using i),
            if att.ops.load = .clear then some cv else none,
            if att.stencil_ops.load = .clear then some cv.stencil else none⟩ :: clears)
        | none => none
    else
      match attachmentClearsOf rp rest cvs with
      | some clears =>
        some (⟨rp.subpasses.findIdx? (fun sp => sp.is_using i), none, none⟩ :: clears)
      | none => none

/-- `begin_render_pass_raw`: asserts the attachment counts match and that
no subpass uses `Present` as an interior layout, builds the clear plan,
enters subpass 0 and runs barrier insertion and target binding. -/
def begin_render_pass_raw (rp : RenderPassDesc) (fb : FramebufferDesc)
    (target_rect : RectD) (clear_values : List ClearValueRaw) :
    Option (RPState × List RPEvent) :=
  if fb.attachments.length ≠ rp.attachments.length then none
  else if rp.subpasses.any (fun sp =>
      (sp.color_attachments ++ sp.depth_stencil_attachment.toList ++
        sp.input_attachments).any (fun aref => decide (aref.2 = ImgLayout.present))) then none
  else
    match attachmentClearsOf rp rp.attachments.enum clear_values with
    | none => none
    | some clears =>
      match insert_subpass_barriers ⟨rp, fb, target_rect, clears⟩ 0 with
      | none => none
      | some e1 =>
        match bind_targets ⟨rp, fb, target_rect, clears⟩ 0 with
        | none => none
        | some e2 => some (⟨some ⟨rp, fb, target_rect, clears⟩, 0⟩, e1 :: e2)

/-- `next_subpass`: increments the subpass index, then runs barrier
insertion and target binding. -/
def next_subpass (st : RPState) : Option (RPState × List RPEvent) :=
  match st.pass_cache with
  | none => none
  | some pc =>
    match insert_subpass_barriers pc (st.cur_subpass + 1) with
    | none => none
    | some e1 =>
      match bind_targets pc (st.cur_subpass + 1) with
      | none => none
      | some e2 => some (⟨some pc, st.cur_subpass + 1⟩, e1 :: e2)

/-- `end_render_pass`: moves to the out-of-range sentinel (emitting the
post-barriers) and discards the cache. -/
def end_render_pass (st : RPState) : Option (RPState × List RPEvent) :=
  match st.pass_cache with
  | none => none
  | some pc =>
    match insert_subpass_barriers pc USIZE_MAX with
    | none => none
    | some e1 => some (⟨none, USIZE_MAX⟩, [e1])

def runNextSubpasses (st : RPState) : Nat → Option (RPState × List RPEvent)
  | 0 => some (st, [])
  | n + 1 =>
    match next_subpass st with
    | none => none
    | some (st1, e1) =>
      match runNextSubpasses st1 n with
      | none => none
      | some (st2, e2) => some (st2, e1 ++ e2)

/-- A full render pass with `N` subpasses: `begin_render_pass_raw`, `N-1`
calls to `next_subpass`, one `end_render_pass`. -/
def recordRenderPass (rp : RenderPassDesc) (fb : FramebufferDesc)
    (target_rect : RectD) (clear_values : List ClearValueRaw) :
    Option (RPState × List RPEvent) :=
  match begin_render_pass_raw rp fb target_rect clear_values with
  | none => none
  | some (st1, e1) =>
    match runNextSubpasses st1 (rp.subpasses.length - 1) with
    | none => none
    | some (st2, e2) =>
      match end_render_pass st2 with
      | none => none
      | some (st3, e3) => some (st3, e1 ++ e2 ++ e3)

def isBarrierBatch : RPEvent → Bool
  | .barrierBatch _ => true
  | _ => false

/-- Is this a clear event for attachment `i` at subpass `s`? -/
def isClearEvent (i s : Nat) : RPEvent → Bool
  | .clearColor i2 s2 => i2 == i && s2 == s
  | .clearDepthStencil i2 s2 _ _ => i2 == i && s2 == s
  | _ => false

/-- Does the clear plan fire a clear for the attachment at position `j`
of the zipped `(framebuffer attachment, clear-plan entry)` list at
subpass `s`? -/
def clearFiresAtB (atts : List (FbAttachment × AttachmentClear)) (j s : Nat) : Bool :=
  match atts.get? j with
  | some (v, c) =>
    (c.subpass_id == some s) &&
      ((v.handle_rtv.isSome && c.value.isSome) ||
        (v.handle_dsv.isSome && (c.value.isSome || c.stencil_value.isSome)))
  | none => false

theorem clearEventsFor_not_barrier (cur idx : Nat) (view : FbAttachment)
    (clear : AttachmentClear) (e : RPEvent)
    (h : e ∈ clearEventsFor cur idx view clear) : isBarrierBatch e = false := by
  unfold clearEventsFor at h
  split at h
  · cases h
  · rcases List.mem_append.mp h with h2 | h2
    · split at h2 <;> simp at h2 <;> subst h2 <;> rfl
    · split at h2
      · split at h2
        · simp at h2
          subst h2
          rfl
        · cases h2
      · cases h2

theorem clearEventsFor_count (cur idx i s : Nat) (view : FbAttachment)
    (clear : AttachmentClear)
    (hx : view.handle_rtv = none ∨ view.handle_dsv = none) :
    (clearEventsFor cur idx view clear).countP (isClearEvent i s) =
      if (decide (i = idx) && decide (s = cur) && (clear.subpass_id == some cur) &&
          ((view.handle_rtv.isSome && clear.value.isSome) ||
            (view.handle_dsv.isSome &&
              (clear.value.isSome || clear.stencil_value.isSome)))) = true
      then 1 else 0 := by
  unfold clearEventsFor
  by_cases h1 : clear.subpass_id ≠ some cur
  · rw [if_pos h1]
    have h2 : (clear.subpass_id == some cur) = false := by
      simpa using h1
    simp [h2]
  · push_neg at h1
    rw [if_neg (by simpa using h1)]
    have h2 : (clear.subpass_id == some cur) = true := by simpa using h1
    rw [List.countP_append]
    have hmap : (clear.value.map ClearValueRaw.depth).isSome = clear.value.isSome := by
      cases clear.value <;> rfl
    rcases hx with hx | hx
    · cases hv : clear.value with
      | none =>
        cases hd : view.handle_dsv with
        | none => simp [hx, hv, hd, h2]
        | some dsv =>
          cases hs : clear.stencil_value with
          | none => simp [hx, hv, hd, hs, h2, hmap]
          | some sv =>
            simp only [hx, hv, hd, hs, hmap, h2, Option.isSome_some, Option.isSome_none]
            by_cases hi : i = idx <;> by_cases hcs : s = cur <;>
              simp [hi, hcs, isClearEvent, List.countP_cons] <;> omega
      | some cv =>
        cases hd : view.handle_dsv with
        | none => simp [hx, hv, hd, h2]
        | some dsv =>
          simp only [hx, hv, hd, hmap, h2, Option.isSome_some, Option.isSome_none]
          by_cases hi : i = idx <;> by_cases hcs : s = cur <;>
            simp [hi, hcs, isClearEvent, List.countP_cons] <;> omega
    · cases hv : clear.value with
      | none =>
        cases hr : view.handle_rtv with
        | none => simp [hx, hv, hr, h2]
        | some rtv => simp [hx, hv, hr, h2]
      | some cv =>
        cases hr : view.handle_rtv with
        | none => simp [hx, hv, hr, h2]
        | some rtv =>
          simp only [hx, hv, hr, hmap, h2, Option.isSome_some, Option.isSome_none]
          by_cases hi : i = idx <;> by_cases hcs : s = cur <;>
            simp [hi, hcs, isClearEvent, List.countP_cons] <;> omega

theorem clears_flatMap_count (atts : List (FbAttachment × AttachmentClear)) :
    ∀ (k cur i s : Nat),
    (∀ p ∈ atts, p.1.handle_rtv = none ∨ p.1.handle_dsv = none) →
    ((List.enumFrom k atts).flatMap
        (fun ivc => clearEventsFor cur ivc.1 ivc.2.1 ivc.2.2)).countP
      (isClearEvent i s) =
      if (decide (k ≤ i) && decide (s = cur) && clearFiresAtB atts (i - k) cur) = true
      then 1 else 0 := by
  induction atts with
  | nil =>
    intro k cur i s _
    have : clearFiresAtB [] (i - k) cur = false := rfl
    simp [this]
  | cons p rest ih =>
    intro k cur i s hx
    rw [List.enumFrom_cons, List.flatMap_cons, List.countP_append,
      clearEventsFor_count cur k i s p.1 p.2 (hx p (by simp)),
      ih (k + 1) cur i s (fun q hq => hx q (by simp [hq]))]
    by_cases hik : i = k
    · subst hik
      have h0 : clearFiresAtB (p :: rest) 0 cur =
          ((p.2.subpass_id == some cur) &&
            ((p.1.handle_rtv.isSome && p.2.value.isSome) ||
              (p.1.handle_dsv.isSome && (p.2.value.isSome || p.2.stencil_value.isSome)))) := rfl
      have h1 : ¬(i + 1 ≤ i) := by omega
      by_cases hsc : s = cur <;> simp [h0, h1, hsc, Nat.sub_self]
    · by_cases hki : k ≤ i
      · have h2 : k + 1 ≤ i := by omega
        have h3 : clearFiresAtB (p :: rest) (i - k) cur =
            clearFiresAtB rest (i - (k + 1)) cur := by
          have hik2 : i - k = (i - (k + 1)) + 1 := by omega
          rw [hik2]
          rfl
        simp [hik, hki, h2, h3]
      · have h2 : ¬(k + 1 ≤ i) := by omega
        simp [hik, hki, h2]

theorem bind_targets_counts (pc : RenderPassCache) (cur : Nat)
    (evs : List RPEvent)
    (hx : ∀ p ∈ pc.framebuffer.attachments.zip pc.attachment_clears,
      p.1.handle_rtv = none ∨ p.1.handle_dsv = none)
    (h : bind_targets pc cur = some evs) :
    evs.countP isBarrierBatch = 0 ∧
    ∀ i s, evs.countP (isClearEvent i s) =
      if s = cur ∧ clearFiresAtB (pc.framebuffer.attachments.zip pc.attachment_clears) i cur = true
      then 1 else 0 := by
  unfold bind_targets at h
  cases hsp : pc.render_pass.subpasses.get? cur with
  | none => simp only [hsp] at h; cases h
  | some subpass =>
    simp only [hsp] at h
    cases hcv : subpass.color_attachments.mapM (fun a =>
        match pc.framebuffer.attachments.get? a.1 with
        | some att => att.handle_rtv
        | none => none) with
    | none =>
      simp only [hcv] at h; cases h
    | some colorViews =>
      simp only [hcv] at h
      cases hds : resolveDs pc subpass with
      | none =>
        simp only [hds] at h; cases h
      | some hasDs =>
        simp only [hds, Option.some.injEq] at h
        subst h
        constructor
        · rw [List.countP_cons]
          have h1 : isBarrierBatch (RPEvent.setRenderTargets colorViews.length hasDs) = false := rfl
          rw [h1]
          simp only [Bool.false_eq_true, if_false, Nat.add_zero]
          refine countP_zeroF _ _ ?_
          intro e he
          obtain ⟨ivc, _, hm⟩ := List.mem_flatMap.mp he
          exact clearEventsFor_not_barrier _ _ _ _ _ hm
        · intro i s
          rw [List.countP_cons]
          have h1 : isClearEvent i s (RPEvent.setRenderTargets colorViews.length hasDs) = false := rfl
          rw [h1]
          simp only [Bool.false_eq_true, if_false, Nat.add_zero]
          have henum : (pc.framebuffer.attachments.zip pc.attachment_clears).enum =
              List.enumFrom 0 (pc.framebuffer.attachments.zip pc.attachment_clears) := rfl
          rw [henum, clears_flatMap_count _ 0 cur i s hx]
          have h2 : i - 0 = i := rfl
          rw [h2]
          by_cases hsc : s = cur
          · by_cases hB : clearFiresAtB (pc.framebuffer.attachments.zip
                pc.attachment_clears) i cur = true
            · simp [hsc, hB]
            · simp [hsc, hB]
          · simp [hsc]

theorem insert_subpass_barriers_shape (pc : RenderPassCache) (cur : Nat)
    (e : RPEvent) (h : insert_subpass_barriers pc cur = some e) :
    ∃ b, e = .barrierBatch b := by
  unfold insert_subpass_barriers at h
  cases hm : translateProtoBarriers pc
      (match pc.render_pass.subpasses.get? cur with
        | some subpass => subpass.pre_barriers
        | none => pc.render_pass.post_barriers) with
  | none =>
    rw [hm] at h
    cases h
  | some batch =>
    rw [hm] at h
    cases h
    exact ⟨batch, rfl⟩

theorem barrierBatch_not_clear (i s : Nat) (b : List RawBarrier) :
    isClearEvent i s (.barrierBatch b) = false := rfl

theorem next_subpass_spec (pc : RenderPassCache) (j : Nat)
    (st2 : RPState) (evs : List RPEvent)
    (hx : ∀ p ∈ pc.framebuffer.attachments.zip pc.attachment_clears,
      p.1.handle_rtv = none ∨ p.1.handle_dsv = none)
    (h : next_subpass ⟨some pc, j⟩ = some (st2, evs)) :
    st2 = ⟨some pc, j + 1⟩ ∧ evs.countP isBarrierBatch = 1 ∧
    ∀ i s, evs.countP (isClearEvent i s) =
      if s = j + 1 ∧ clearFiresAtB (pc.framebuffer.attachments.zip
        pc.attachment_clears) i (j + 1) = true
      then 1 else 0 := by
  unfold next_subpass at h
  cases h1 : insert_subpass_barriers pc (j + 1) with
  | none => simp only [h1] at h; cases h
  | some e1 =>
    simp only [h1] at h
    cases h2 : bind_targets pc (j + 1) with
    | none => simp only [h2] at h; cases h
    | some evs2 =>
      simp only [h2, Option.some.injEq, Prod.mk.injEq] at h
      obtain ⟨hst, hevs⟩ := h
      obtain ⟨b1, hb1⟩ := insert_subpass_barriers_shape pc (j + 1) e1 h1
      obtain ⟨hbt0, hbtc⟩ := bind_targets_counts pc (j + 1) evs2 hx h2
      subst hevs
      refine ⟨hst.symm, ?_, ?_⟩
      · rw [List.countP_cons, hbt0, hb1]
        rfl
      · intro i s
        rw [List.countP_cons, hb1, barrierBatch_not_clear, hbtc i s]
        simp

theorem runNextSubpasses_spec (n : Nat) :
    ∀ (pc : RenderPassCache) (j : Nat) (st2 : RPState) (evs : List RPEvent),
    (∀ p ∈ pc.framebuffer.attachments.zip pc.attachment_clears,
      p.1.handle_rtv = none ∨ p.1.handle_dsv = none) →
    runNextSubpasses ⟨some pc, j⟩ n = some (st2, evs) →
    st2 = ⟨some pc, j + n⟩ ∧ evs.countP isBarrierBatch = n ∧
    ∀ i s, evs.countP (isClearEvent i s) =
      if j + 1 ≤ s ∧ s ≤ j + n ∧ clearFiresAtB (pc.framebuffer.attachments.zip
        pc.attachment_clears) i s = true
      then 1 else 0 := by
  induction n with
  | zero =>
    intro pc j st2 evs _ h
    cases h
    refine ⟨rfl, rfl, ?_⟩
    intro i s
    have hc : ¬(j + 1 ≤ s ∧ s ≤ j + 0 ∧
        clearFiresAtB (pc.framebuffer.attachments.zip pc.attachment_clears) i s = true) := by
      rintro ⟨hc1, hc2, _⟩
      omega
    rw [if_neg hc]
    rfl
  | succ n ih =>
    intro pc j st2 evs hx h
    unfold runNextSubpasses at h
    cases h1 : next_subpass ⟨some pc, j⟩ with
    | none => simp only [h1] at h; cases h
    | some r1 =>
      simp only [h1] at h
      obtain ⟨st1a, evs1⟩ := r1
      obtain ⟨hst1, hcb1, hcc1⟩ := next_subpass_spec pc j st1a evs1 hx h1
      subst hst1
      cases h2 : runNextSubpasses ⟨some pc, j + 1⟩ n with
      | none => simp only [h2] at h; cases h
      | some r2 =>
        obtain ⟨st2a, evs2⟩ := r2
        simp only [h2, Option.some.injEq, Prod.mk.injEq] at h
        obtain ⟨hst2, hevs⟩ := h
        obtain ⟨hst2b, hcb2, hcc2⟩ := ih pc (j + 1) st2a evs2 hx h2
        subst hevs
        refine ⟨?_, ?_, ?_⟩
        · rw [← hst2, hst2b]
          exact congrArg _ (by omega)
        · rw [List.countP_append, hcb1, hcb2]
          omega
        · intro i s
          rw [List.countP_append, hcc1 i s, hcc2 i s]
          by_cases hB : clearFiresAtB (pc.framebuffer.attachments.zip
              pc.attachment_clears) i s = true
          · by_cases hs1 : s = j + 1
            · subst hs1
              have hA : (j + 1 = j + 1 ∧ clearFiresAtB (pc.framebuffer.attachments.zip
                  pc.attachment_clears) i (j + 1) = true) := ⟨rfl, hB⟩
              rw [if_pos hA, if_neg (fun hc => absurd hc.1 (by omega)),
                if_pos ⟨by omega, by omega, hB⟩]
            · rw [if_neg (fun hc => hs1 hc.1)]
              by_cases hs2 : j + 1 + 1 ≤ s ∧ s ≤ j + 1 + n
              · rw [if_pos ⟨hs2.1, hs2.2, hB⟩, if_pos ⟨by omega, by omega, hB⟩]
              · rw [if_neg (fun hc => hs2 ⟨hc.1, hc.2.1⟩),
                  if_neg (fun hc => hs2 ⟨by omega, by omega⟩)]
          · rw [if_neg (fun (hc : s = j + 1 ∧ _) => hB (by rw [hc.1]; exact hc.2)),
              if_neg (fun hc => hB hc.2.2), if_neg (fun hc => hB hc.2.2)]

theorem end_render_pass_spec (pc : RenderPassCache) (j : Nat)
    (st3 : RPState) (evs : List RPEvent)
    (h : end_render_pass ⟨some pc, j⟩ = some (st3, evs)) :
    st3 = ⟨none, USIZE_MAX⟩ ∧ evs.countP isBarrierBatch = 1 ∧
    ∀ i s, evs.countP (isClearEvent i s) = 0 := by
  unfold end_render_pass at h
  cases h1 : insert_subpass_barriers pc USIZE_MAX with
  | none => simp only [h1] at h; cases h
  | some e1 =>
    simp only [h1, Option.some.injEq, Prod.mk.injEq] at h
    obtain ⟨hst, hevs⟩ := h
    obtain ⟨b1, hb1⟩ := insert_subpass_barriers_shape pc USIZE_MAX e1 h1
    subst hevs
    refine ⟨hst.symm, ?_, ?_⟩
    · rw [hb1]
      rfl
    · intro i s
      rw [hb1]
      rfl

theorem bind_targets_subpass_lt (pc : RenderPassCache) (cur : Nat)
    (evs : List RPEvent) (h : bind_targets pc cur = some evs) :
    cur < pc.render_pass.subpasses.length := by
  unfold bind_targets at h
  cases h1 : pc.render_pass.subpasses.get? cur with
  | none => simp only [h1] at h; cases h
  | some sp =>
    rw [List.get?_eq_getElem?] at h1
    exact (List.getElem?_eq_some.mp h1).1

theorem attachmentClearsOf_subpass (rp : RenderPassDesc) (atts : List AttachmentDesc) :
    ∀ (k : Nat) (cvs : List ClearValueRaw) (plan : List AttachmentClear),
    attachmentClearsOf rp (List.enumFrom k atts) cvs = some plan →
    ∀ j c, plan.get? j = some c →
      c.subpass_id = rp.subpasses.findIdx? (fun sp => sp.is_using (k + j)) := by
  induction atts with
  | nil =>
    intro k cvs plan h j c hc
    cases h
    cases hc
  | cons a rest ih =>
    intro k cvs plan h j c hc
    have he : List.enumFrom k (a :: rest) = (k, a) :: List.enumFrom (k + 1) rest := rfl
    rw [he] at h
    unfold attachmentClearsOf at h
    by_cases hcl : (a.ops.load = AttachmentLoadOp.clear ∨
        a.stencil_ops.load = AttachmentLoadOp.clear)
    · rw [if_pos hcl] at h
      cases cvs with
      | nil => cases h
      | cons cv cvs2 =>
        cases h1 : attachmentClearsOf rp (List.enumFrom (k + 1) rest) cvs2 with
        | none => simp only [h1] at h; cases h
        | some clears =>
          simp only [h1, Option.some.injEq] at h
          subst h
          cases j with
          | zero =>
            cases hc
            rfl
          | succ j =>
            have hrec := ih (k + 1) cvs2 clears h1 j c hc
            rw [hrec]
            have harith : k + 1 + j = k + (j + 1) := by omega
            rw [harith]
    · rw [if_neg hcl] at h
      cases h1 : attachmentClearsOf rp (List.enumFrom (k + 1) rest) cvs with
      | none => simp only [h1] at h; cases h
      | some clears =>
        simp only [h1, Option.some.injEq] at h
        subst h
        cases j with
        | zero =>
          cases hc
          rfl
        | succ j =>
          have hrec := ih (k + 1) cvs clears h1 j c hc
          rw [hrec]
          have harith : k + 1 + j = k + (j + 1) := by omega
          rw [harith]

theorem clearFires_subpass_lt (rp : RenderPassDesc) (fb : FramebufferDesc)
    (cvs : List ClearValueRaw) (plan : List AttachmentClear)
    (hplan : attachmentClearsOf rp rp.attachments.enum cvs = some plan)
    (i s : Nat) (hB : clearFiresAtB (fb.attachments.zip plan) i s = true) :
    s < rp.subpasses.length := by
  unfold clearFiresAtB at hB
  cases hg : (fb.attachments.zip plan).get? i with
  | none => simp only [hg] at hB; cases hB
  | some vc =>
    obtain ⟨v, c⟩ := vc
    simp only [hg] at hB
    rw [Bool.and_eq_true] at hB
    have hbeq : c.subpass_id = some s := eq_of_beq hB.1
    have hpg : plan.get? i = some c := by
      rw [List.get?_eq_getElem?] at hg ⊢
      exact (List.getElem?_zip_eq_some.mp hg).2
    have henum : rp.attachments.enum = List.enumFrom 0 rp.attachments := rfl
    rw [henum] at hplan
    have hsub := attachmentClearsOf_subpass rp rp.attachments 0 cvs plan hplan i c hpg
    rw [hbeq] at hsub
    exact (List.findIdx?_eq_some_iff_findIdx_eq.mp hsub.symm).1

theorem begin_render_pass_raw_spec (rp : RenderPassDesc) (fb : FramebufferDesc)
    (rect : RectD) (cvs : List ClearValueRaw) (plan : List AttachmentClear)
    (st1 : RPState) (evs : List RPEvent)
    (hplan : attachmentClearsOf rp rp.attachments.enum cvs = some plan)
    (hx : ∀ p ∈ fb.attachments.zip plan, p.1.handle_rtv = none ∨ p.1.handle_dsv = none)
    (h : begin_render_pass_raw rp fb rect cvs = some (st1, evs)) :
    st1 = ⟨some ⟨rp, fb, rect, plan⟩, 0⟩ ∧ 0 < rp.subpasses.length ∧
    evs.countP isBarrierBatch = 1 ∧
    ∀ i s, evs.countP (isClearEvent i s) =
      if s = 0 ∧ clearFiresAtB (fb.attachments.zip plan) i 0 = true then 1 else 0 := by
  unfold begin_render_pass_raw at h
  split at h
  · cases h
  · split at h
    · cases h
    · simp only [hplan] at h
      cases h3 : insert_subpass_barriers ⟨rp, fb, rect, plan⟩ 0 with
      | none => simp only [h3] at h; cases h
      | some e1 =>
        simp only [h3] at h
        cases h4 : bind_targets ⟨rp, fb, rect, plan⟩ 0 with
        | none => simp only [h4] at h; cases h
        | some e2 =>
          simp only [h4, Option.some.injEq, Prod.mk.injEq] at h
          obtain ⟨hst, hevs⟩ := h
          obtain ⟨b1, hb1⟩ := insert_subpass_barriers_shape _ 0 e1 h3
          have hbt := bind_targets_counts ⟨rp, fb, rect, plan⟩ 0 e2 hx h4
          obtain ⟨hbt0, hbtc⟩ := hbt
          have hlen : 0 < rp.subpasses.length := bind_targets_subpass_lt _ 0 e2 h4
          subst hevs
          refine ⟨hst.symm, hlen, ?_, ?_⟩
          · rw [List.countP_cons, hbt0, hb1]
            rfl
          · intro i s
            rw [List.countP_cons, hb1, barrierBatch_not_clear, hbtc i s]
            simp

/-- C6: recording a render pass with `N` subpasses (one
`begin_render_pass_raw`, `N - 1` calls to `next_subpass`, one
`end_render_pass`) emits exactly `N + 1` barrier-insertion events; every
attachment whose clear plan fires does so exactly once, at the subpass
the plan records, and the recorded subpass is the attachment's first use
(the first subpass using it). Stated for framebuffers whose attachments
each carry at most one of the two view kinds, so a clear maps to one
native clear call. -/
theorem render_pass_barrier_and_clear_counts
    (rp : RenderPassDesc) (fb : FramebufferDesc) (rect : RectD)
    (cvs : List ClearValueRaw) (plan : List AttachmentClear)
    (st3 : RPState) (tr : List RPEvent)
    (hplan : attachmentClearsOf rp rp.attachments.enum cvs = some plan)
    (hx : ∀ p ∈ fb.attachments.zip plan, p.1.handle_rtv = none ∨ p.1.handle_dsv = none)
    (h : recordRenderPass rp fb rect cvs = some (st3, tr)) :
    tr.countP isBarrierBatch = rp.subpasses.length + 1 ∧
    (∀ i s, tr.countP (isClearEvent i s) =
      if clearFiresAtB (fb.attachments.zip plan) i s = true then 1 else 0) ∧
    (∀ j c, plan.get? j = some c →
      c.subpass_id = rp.subpasses.findIdx? (fun sp => sp.is_using j)) := by
  unfold recordRenderPass at h
  cases hb : begin_render_pass_raw rp fb rect cvs with
  | none => simp only [hb] at h; cases h
  | some r1 =>
    obtain ⟨st1, e1⟩ := r1
    simp only [hb] at h
    obtain ⟨hst1, hlen, hcb1, hcc1⟩ :=
      begin_render_pass_raw_spec rp fb rect cvs plan st1 e1 hplan hx hb
    subst hst1
    cases hr : runNextSubpasses ⟨some ⟨rp, fb, rect, plan⟩, 0⟩
        (rp.subpasses.length - 1) with
    | none => simp only [hr] at h; cases h
    | some r2 =>
      obtain ⟨st2, e2⟩ := r2
      simp only [hr] at h
      obtain ⟨hst2, hcb2, hcc2⟩ := runNextSubpasses_spec (rp.subpasses.length - 1)
        ⟨rp, fb, rect, plan⟩ 0 st2 e2 hx hr
      have hcc2b : ∀ i s, e2.countP (isClearEvent i s) =
          if 0 + 1 ≤ s ∧ s ≤ 0 + (rp.subpasses.length - 1) ∧
            clearFiresAtB (fb.attachments.zip plan) i s = true
          then 1 else 0 := hcc2
      subst hst2
      cases he : end_render_pass ⟨some ⟨rp, fb, rect, plan⟩,
          0 + (rp.subpasses.length - 1)⟩ with
      | none => simp only [he] at h; cases h
      | some r3 =>
        obtain ⟨st3a, e3⟩ := r3
        simp only [he, Option.some.injEq, Prod.mk.injEq] at h
        obtain ⟨hst3, htr⟩ := h
        obtain ⟨hst3b, hcb3, hcc3⟩ := end_render_pass_spec ⟨rp, fb, rect, plan⟩
          (0 + (rp.subpasses.length - 1)) st3a e3 he
        subst htr
        refine ⟨?_, ?_, ?_⟩
        · rw [List.countP_append, List.countP_append, hcb1, hcb2, hcb3]
          omega
        · intro i s
          rw [List.countP_append, List.countP_append, hcc1 i s, hcc2b i s, hcc3 i s]
          by_cases hB : clearFiresAtB (fb.attachments.zip plan) i s = true
          · have hslt : s < rp.subpasses.length :=
              clearFires_subpass_lt rp fb cvs plan hplan i s hB
            by_cases hs0 : s = 0
            · subst hs0
              rw [if_pos (⟨rfl, hB⟩ : (0 : Nat) = 0 ∧ _),
                if_neg (fun hc => absurd hc.1 (by omega)), if_pos hB]
            · rw [if_neg (fun (hc : s = 0 ∧ _) => hs0 hc.1),
                if_pos ⟨by omega, by omega, hB⟩, if_pos hB]
          · rw [if_neg (fun (hc : s = 0 ∧ _) => hB (by rw [hc.1]; exact hc.2)),
              if_neg (fun hc => hB hc.2.2), if_neg hB]
        · intro j c hc
          have henum : rp.attachments.enum = List.enumFrom 0 rp.attachments := rfl
          rw [henum] at hplan
          have hres := attachmentClearsOf_subpass rp rp.attachments 0 cvs plan hplan j c hc
          rw [Nat.zero_add] at hres
          exact hres

def attW6 : AttachmentDesc :=
  ⟨⟨AttachmentLoadOp.clear, AttachmentStoreOp.store⟩,
   ⟨AttachmentLoadOp.dontCare, AttachmentStoreOp.dontCare⟩⟩

def spW6 : SubpassDesc := ⟨[(0, ImgLayout.colorAttachmentOptimal)], none, [], []⟩

def rpW6 : RenderPassDesc := ⟨[attW6], [spW6, spW6], []⟩

def fbW6 : FramebufferDesc := ⟨[⟨0, some 5, none⟩]⟩

def cvW6 : ClearValueRaw := ⟨42, 0, 0⟩

def planW6 : List AttachmentClear := [⟨some 0, some cvW6, none⟩]

def trW6 : List RPEvent :=
  [.barrierBatch [], .setRenderTargets 1 false, .clearColor 0 0,
   .barrierBatch [], .setRenderTargets 1 false, .barrierBatch []]

theorem render_pass_barrier_and_clear_counts_witness :
    attachmentClearsOf rpW6 rpW6.attachments.enum [cvW6] = some planW6 ∧
    (∀ p ∈ fbW6.attachments.zip planW6,
      p.1.handle_rtv = none ∨ p.1.handle_dsv = none) ∧
    recordRenderPass rpW6 fbW6 ⟨0, 0, 1, 1⟩ [cvW6] =
      some (⟨none, USIZE_MAX⟩, trW6) ∧
    (trW6.countP isBarrierBatch = rpW6.subpasses.length + 1 ∧
     (∀ i s, trW6.countP (isClearEvent i s) =
       if clearFiresAtB (fbW6.attachments.zip planW6) i s = true then 1 else 0) ∧
     (∀ j c, planW6.get? j = some c →
       c.subpass_id = rpW6.subpasses.findIdx? (fun sp => sp.is_using j))) :=
  ⟨by decide, by decide, by decide,
   render_pass_barrier_and_clear_counts rpW6 fbW6 ⟨0, 0, 1, 1⟩ [cvW6] planW6
     ⟨none, USIZE_MAX⟩ trW6 (by decide) (by decide) (by decide)⟩

/-! ### `split_buffer_copy` (buffer-image copy splitting) -/

/-- `D3D12_TEXTURE_DATA_PITCH_ALIGNMENT` (256). -/
def PITCH_ALIGNMENT : Nat := 256

/-- `D3D12_TEXTURE_DATA_PLACEMENT_ALIGNMENT` (512). -/
def PLACEMENT_ALIGNMENT : Nat := 512

/-- Wrapping `i32` addition (release-mode Rust `a + b` on `i32`). -/
def addI32 (a b : Int) : Int := toI32 (i32toU32 (a + b))

/-- `image::Extent` (`u32` fields). -/
structure Extent where
  width : Nat
  height : Nat
  depth : Nat
deriving DecidableEq

/-- `image::Offset` (`i32` fields). -/
structure Offset where
  x : Int
  y : Int
  z : Int
deriving DecidableEq

def Offset.ZERO : Offset := ⟨0, 0, 0⟩

/-- `image::SubresourceLayers` (`level`, `layers : Range<u16>`). -/
structure SubresourceLayers where
  level : Nat
  layer_start : Nat
  layer_end : Nat
deriving DecidableEq

/-- `command::BufferImageCopy`. -/
structure BufferImageCopy where
  buffer_offset : Nat
  buffer_width : Nat
  buffer_height : Nat
  image_layers : SubresourceLayers
  image_offset : Offset
  image_extent : Extent
deriving DecidableEq

/-- The internal `Copy` record pushed by `split_buffer_copy`. -/
structure Copy where
  footprint_offset : Nat
  footprint : Extent
  row_pitch : Nat
  img_subresource : Nat
  img_offset : Offset
  buf_offset : Offset
  copy_extent : Extent
deriving DecidableEq

/-- `r.buffer_width`, defaulting to the image extent width when zero. -/
def bufferWidthEff (r : BufferImageCopy) : Nat :=
  if r.buffer_width = 0 then r.image_extent.width else r.buffer_width

/-- `r.buffer_height`, defaulting to the image extent height when zero. -/
def bufferHeightEff (r : BufferImageCopy) : Nat :=
  if r.buffer_height = 0 then r.image_extent.height else r.buffer_height

/-- The layers iterated by `for layer in r.image_layers.layers`. -/
def layersList (r : BufferImageCopy) : List Nat :=
  List.range' r.image_layers.layer_start
    (r.image_layers.layer_end - r.image_layers.layer_start)

/-- `layer_offset`: `r.buffer_offset as u64 + (layer as u32 * slice_pitch *
r.image_extent.depth) as u64` (`u32` product wraps, then widens; `u64` sum
wraps). -/
def layerOffsetOf (r : BufferImageCopy) (slice_pitch layer : Nat) : Nat :=
  u64 (r.buffer_offset + u32 (layer * slice_pitch * r.image_extent.depth))

/-- `& !(D3D12_TEXTURE_DATA_PLACEMENT_ALIGNMENT as u64 - 1)`: rounding an
offset down to the placement alignment. -/
def alignedOf (n : Nat) : Nat := n &&& not64 (PLACEMENT_ALIGNMENT - 1)

/-- `buf_offset` of the offset-unaligned case: `{x: gap % row_pitch as i32,
y: (gap % slice_pitch as i32) / row_pitch as i32, z: gap / slice_pitch as
i32}` (`i32` truncated remainder / division). -/
def bufOffsetOf (gap rp32 sp32 : Int) : Offset :=
  ⟨Int.tmod gap rp32, Int.tdiv (Int.tmod gap sp32) rp32, Int.tdiv gap sp32⟩

/-- The offset-unaligned, pitch-aligned case of `split_buffer_copy` after
its locals are computed: one adjusted copy when the region fits the row,
otherwise (under the two `assert!`s) a two-way split with `half =
row_pitch_texels - buf_offset.x as u32`. -/
def splitCaseB (r : BufferImageCopy)
    (row_pitch row_pitch_texels img_subresource aligned_offset : Nat)
    (buf_offset : Offset) : Option (List Copy) :=
  if u32 (r.image_extent.width + i32toU32 buf_offset.x) ≤ row_pitch_texels then
    some [⟨aligned_offset,
      ⟨u32 (i32toU32 buf_offset.x + r.image_extent.width),
       u32 (i32toU32 buf_offset.y + r.image_extent.height),
       u32 (i32toU32 buf_offset.z + r.image_extent.depth)⟩,
      row_pitch, img_subresource, r.image_offset, buf_offset, r.image_extent⟩]
  else if ¬ i32toU32 buf_offset.x ≤ row_pitch_texels then none
  else if ¬ row_pitch_texels - i32toU32 buf_offset.x ≤ r.image_extent.width then none
  else
    some [⟨aligned_offset,
        ⟨row_pitch_texels,
         u32 (i32toU32 buf_offset.y + r.image_extent.height),
         u32 (i32toU32 buf_offset.z + r.image_extent.depth)⟩,
        row_pitch, img_subresource, r.image_offset, buf_offset,
        ⟨row_pitch_texels - i32toU32 buf_offset.x, r.image_extent.height,
         r.image_extent.depth⟩⟩,
      ⟨aligned_offset,
        ⟨r.image_extent.width - (row_pitch_texels - i32toU32 buf_offset.x),
         u32 (u32 (i32toU32 buf_offset.y + r.image_extent.height) + 1),
         u32 (i32toU32 buf_offset.z + r.image_extent.depth)⟩,
        row_pitch, img_subresource,
        ⟨addI32 r.image_offset.x (toI32 (row_pitch_texels - i32toU32 buf_offset.x)),
         r.image_offset.y, r.image_offset.z⟩,
        ⟨0, buf_offset.y, buf_offset.z⟩,
        ⟨r.image_extent.width - (row_pitch_texels - i32toU32 buf_offset.x),
         r.image_extent.height, r.image_extent.depth⟩⟩]

/-- `row_offset` of the per-row case: `layer_offset + z as u64 *
slice_pitch as u64 + y as u64 * row_pitch as u64`. -/
def rowOffsetOf (layer_offset slice_pitch row_pitch z y : Nat) : Nat :=
  u64 (layer_offset + z * slice_pitch + y * row_pitch)

/-- `cut_width`: `min(r.image_extent.width, cut_row_texels as u32)` where
`cut_row_texels = (next_aligned_offset - row_offset) / bytes_per_block`. -/
def cutWidthOf (r : BufferImageCopy) (bpb row_offset : Nat) : Nat :=
  min r.image_extent.width
    (u32 (wsub64 (u64 (alignedOf row_offset + PLACEMENT_ALIGNMENT)) row_offset / bpb))

/-- `gap_texels`: `(row_offset - aligned_offset) as u32 / bytes_per_block`. -/
def gapTexelsOf (bpb row_offset : Nat) : Nat :=
  u32 (row_offset - alignedOf row_offset) / bpb

/-- The conservative `row_pitch` of the per-row case:
`(max_unaligned_pitch | D3D12_TEXTURE_DATA_PITCH_ALIGNMENT) + 1`. -/
def unalignedRowPitch (r : BufferImageCopy) (bpb : Nat) : Nat :=
  u32 ((u32 (r.image_extent.width * bpb) ||| PITCH_ALIGNMENT) + 1)

/-- One `(z, y)` row of the unaligned-pitch case: a copy up to the next
placement boundary, and the leftover beyond it when the row crosses it. -/
def splitRowCopies (r : BufferImageCopy)
    (bpb img_subresource layer_offset slice_pitch row_pitch z y : Nat) :
    List Copy :=
  if cutWidthOf r bpb (rowOffsetOf layer_offset slice_pitch row_pitch z y) =
      r.image_extent.width then
    [⟨alignedOf (rowOffsetOf layer_offset slice_pitch row_pitch z y),
      ⟨u32 (cutWidthOf r bpb (rowOffsetOf layer_offset slice_pitch row_pitch z y) +
        gapTexelsOf bpb (rowOffsetOf layer_offset slice_pitch row_pitch z y)), 1, 1⟩,
      unalignedRowPitch r bpb, img_subresource,
      ⟨r.image_offset.x, addI32 r.image_offset.y (toI32 y),
        addI32 r.image_offset.z (toI32 z)⟩,
      ⟨toI32 (gapTexelsOf bpb (rowOffsetOf layer_offset slice_pitch row_pitch z y)), 0, 0⟩,
      ⟨cutWidthOf r bpb (rowOffsetOf layer_offset slice_pitch row_pitch z y), 1, 1⟩⟩]
  else
    [⟨alignedOf (rowOffsetOf layer_offset slice_pitch row_pitch z y),
      ⟨u32 (cutWidthOf r bpb (rowOffsetOf layer_offset slice_pitch row_pitch z y) +
        gapTexelsOf bpb (rowOffsetOf layer_offset slice_pitch row_pitch z y)), 1, 1⟩,
      unalignedRowPitch r bpb, img_subresource,
      ⟨r.image_offset.x, addI32 r.image_offset.y (toI32 y),
        addI32 r.image_offset.z (toI32 z)⟩,
      ⟨toI32 (gapTexelsOf bpb (rowOffsetOf layer_offset slice_pitch row_pitch z y)), 0, 0⟩,
      ⟨cutWidthOf r bpb (rowOffsetOf layer_offset slice_pitch row_pitch z y), 1, 1⟩⟩,
     ⟨u64 (alignedOf (rowOffsetOf layer_offset slice_pitch row_pitch z y) +
        PLACEMENT_ALIGNMENT),
      ⟨r.image_extent.width -
        cutWidthOf r bpb (rowOffsetOf layer_offset slice_pitch row_pitch z y), 1, 1⟩,
      unalignedRowPitch r bpb, img_subresource,
      ⟨addI32 r.image_offset.x
        (toI32 (cutWidthOf r bpb (rowOffsetOf layer_offset slice_pitch row_pitch z y))),
       addI32 r.image_offset.y (toI32 y), addI32 r.image_offset.z (toI32 z)⟩,
      Offset.ZERO,
      ⟨r.image_extent.width -
        cutWidthOf r bpb (rowOffsetOf layer_offset slice_pitch row_pitch z y), 1, 1⟩⟩]

/-- The body of the per-layer loop of `split_buffer_copy` (one `layer`
iteration): the three alignment cases, with `assert!`s, `assert_eq!`s and
division-by-zero panics as `none`. -/
def splitLayer (r : BufferImageCopy) (image : NImage)
    (row_pitch slice_pitch : Nat) (is_pitch_aligned : Bool) (layer : Nat) :
    Option (List Copy) :=
  if layerOffsetOf r slice_pitch layer =
      alignedOf (layerOffsetOf r slice_pitch layer) ∧ is_pitch_aligned = true then
    some [⟨alignedOf (layerOffsetOf r slice_pitch layer), r.image_extent, row_pitch,
      image.calc_subresource r.image_layers.level layer 0,
      r.image_offset, Offset.ZERO, r.image_extent⟩]
  else if is_pitch_aligned = true then
    if image.block_dim ≠ (1, 1) then none
    else if image.bytes_per_block = 0 then none
    else if toI32 row_pitch = 0 ∨ toI32 slice_pitch = 0 then none
    else splitCaseB r row_pitch (row_pitch / image.bytes_per_block)
      (image.calc_subresource r.image_layers.level layer 0)
      (alignedOf (layerOffsetOf r slice_pitch layer))
      (bufOffsetOf
        (toI32 (layerOffsetOf r slice_pitch layer -
          alignedOf (layerOffsetOf r slice_pitch layer)))
        (toI32 row_pitch) (toI32 slice_pitch))
  else
    if image.block_dim ≠ (1, 1) then none
    else if image.bytes_per_block = 0 then none
    else some ((List.range r.image_extent.depth).flatMap (fun z =>
      (List.range r.image_extent.height).flatMap (fun y =>
        splitRowCopies r image.bytes_per_block
          (image.calc_subresource r.image_layers.level layer 0)
          (layerOffsetOf r slice_pitch layer) slice_pitch row_pitch z y)))

/-- `split_buffer_copy`: derives the effective buffer pitches (`div`
asserts exact divisibility by the block dimensions), then splits each
layer of the requested range. -/
def split_buffer_copy (r : BufferImageCopy) (image : NImage) :
    Option (List Copy) :=
  match rdiv (bufferWidthEff r) image.block_dim.1 with
  | none => none
  | some qw =>
    let row_pitch := u32 (qw * image.bytes_per_block)
    match rdiv (bufferHeightEff r) image.block_dim.2 with
    | none => none
    | some qh =>
      let slice_pitch := u32 (qh * row_pitch)
      match (layersList r).mapM
          (splitLayer r image row_pitch slice_pitch
            (row_pitch % PITCH_ALIGNMENT == 0)) with
      | none => none
      | some css => some css.flatten

/-- Does `Copy` `c` cover image texel `(x, y, z)` (image-side mapping:
`img_offset` plus `copy_extent`)? -/
def texelInCopy (c : Copy) (x y z : Int) : Bool :=
  decide (c.img_offset.x ≤ x) && decide (x < c.img_offset.x + c.copy_extent.width) &&
  decide (c.img_offset.y ≤ y) && decide (y < c.img_offset.y + c.copy_extent.height) &&
  decide (c.img_offset.z ≤ z) && decide (z < c.img_offset.z + c.copy_extent.depth)

/-- Does the requested region of `r` contain image texel `(x, y, z)`? -/
def texelInRegion (r : BufferImageCopy) (x y z : Int) : Bool :=
  decide (r.image_offset.x ≤ x) &&
  decide (x < r.image_offset.x + r.image_extent.width) &&
  decide (r.image_offset.y ≤ y) &&
  decide (y < r.image_offset.y + r.image_extent.height) &&
  decide (r.image_offset.z ≤ z) &&
  decide (z < r.image_offset.z + r.image_extent.depth)

theorem mapM_mem_some {α β : Type} (f : α → Option β) :
    ∀ (xs : List α) (ys : List β), xs.mapM f = some ys →
    ∀ y ∈ ys, ∃ x ∈ xs, f x = some y := by
  intro xs
  induction xs with
  | nil =>
    intro ys h y hy
    rw [List.mapM_nil] at h
    cases h
    cases hy
  | cons a as ih =>
    intro ys h y hy
    rw [List.mapM_cons] at h
    cases hfa : f a with
    | none => simp only [hfa, Option.bind_eq_bind, Option.none_bind] at h; cases h
    | some b =>
      simp only [hfa, Option.bind_eq_bind, Option.some_bind] at h
      cases hrec : as.mapM f with
      | none => simp only [hrec, Option.bind_eq_bind, Option.none_bind] at h; cases h
      | some bs =>
        simp only [hrec, Option.bind_eq_bind, Option.some_bind, Option.pure_def,
          Option.some.injEq] at h
        subst h
        cases hy with
        | head => exact ⟨a, List.mem_cons_self a as, hfa⟩
        | tail _ hmem =>
          obtain ⟨x, hx, hfx⟩ := ih bs hrec y hmem
          exact ⟨x, List.mem_cons_of_mem a hx, hfx⟩

theorem layerOffsetOf_lt (r : BufferImageCopy) (slice_pitch layer : Nat) :
    layerOffsetOf r slice_pitch layer < 2 ^ 64 := u64_lt _

theorem next_aligned_mod (a : Nat) (ha : a % 512 = 0) :
    u64 (a + 512) % 512 = 0 := by
  unfold u64
  rw [Nat.mod_mod_of_dvd _ (by norm_num : (512 : Nat) ∣ 2 ^ 64)]
  omega

theorem rowOffsetOf_lt (lo sp rp z y : Nat) :
    rowOffsetOf lo sp rp z y < 2 ^ 64 := u64_lt _

theorem alignedOf_mod (n : Nat) (hn : n < 2 ^ 64) :
    alignedOf n % PLACEMENT_ALIGNMENT = 0 := land_not511_mod n hn

theorem splitCaseB_footprint (r : BufferImageCopy)
    (row_pitch rpt sub ao : Nat) (bo : Offset) (copies : List Copy)
    (h : splitCaseB r row_pitch rpt sub ao bo = some copies) :
    ∀ c ∈ copies, c.footprint_offset = ao := by
  intro c hc
  unfold splitCaseB at h
  split at h
  · cases h
    cases hc with
    | head => rfl
    | tail _ hm => cases hm
  · split at h
    · cases h
    · split at h
      · cases h
      · cases h
        cases hc with
        | head => rfl
        | tail _ hm =>
          cases hm with
          | head => rfl
          | tail _ hm2 => cases hm2

set_option maxRecDepth 4000 in
theorem splitRowCopies_aligned (r : BufferImageCopy)
    (bpb sub lo sp rp z y : Nat) :
    ∀ c ∈ splitRowCopies r bpb sub lo sp rp z y,
      c.footprint_offset % PLACEMENT_ALIGNMENT = 0 := by
  intro c hc
  have hal : alignedOf (rowOffsetOf lo sp rp z y) % PLACEMENT_ALIGNMENT = 0 :=
    alignedOf_mod _ (rowOffsetOf_lt lo sp rp z y)
  unfold splitRowCopies at hc
  split at hc
  · cases hc with
    | head => exact hal
    | tail _ hm => cases hm
  · cases hc with
    | head => exact hal
    | tail _ hm =>
      cases hm with
      | head => exact next_aligned_mod _ hal
      | tail _ hm2 => cases hm2

theorem splitLayer_footprint_aligned (r : BufferImageCopy) (image : NImage)
    (row_pitch slice_pitch : Nat) (ipa : Bool) (layer : Nat)
    (copies : List Copy)
    (h : splitLayer r image row_pitch slice_pitch ipa layer = some copies) :
    ∀ c ∈ copies, c.footprint_offset % PLACEMENT_ALIGNMENT = 0 := by
  intro c hc
  have halo : alignedOf (layerOffsetOf r slice_pitch layer) %
      PLACEMENT_ALIGNMENT = 0 :=
    alignedOf_mod _ (layerOffsetOf_lt r slice_pitch layer)
  unfold splitLayer at h
  split at h
  · cases h
    cases hc with
    | head => exact halo
    | tail _ hm => cases hm
  · split at h
    · split at h
      · cases h
      · split at h
        · cases h
        · split at h
          · cases h
          · have := splitCaseB_footprint r row_pitch
              (row_pitch / image.bytes_per_block)
              (image.calc_subresource r.image_layers.level layer 0)
              (alignedOf (layerOffsetOf r slice_pitch layer)) _ copies h c hc
            rw [this]
            exact halo
    · split at h
      · cases h
      · split at h
        · cases h
        · cases h
          obtain ⟨z, hz, hcy⟩ := List.mem_flatMap.mp hc
          obtain ⟨y, hy, hcr⟩ := List.mem_flatMap.mp hcy
          exact splitRowCopies_aligned r image.bytes_per_block _ _ _ _ z y c hcr

/-- C8: every `Copy` produced by `split_buffer_copy`, in all three
alignment cases, has a `footprint_offset` that is a multiple of
`D3D12_TEXTURE_DATA_PLACEMENT_ALIGNMENT` (512). -/
theorem split_buffer_copy_placement_alignment
    (r : BufferImageCopy) (image : NImage) (cs : List Copy)
    (h : split_buffer_copy r image = some cs) :
    ∀ c ∈ cs, c.footprint_offset % PLACEMENT_ALIGNMENT = 0 := by
  intro c hc
  unfold split_buffer_copy at h
  cases hqw : rdiv (bufferWidthEff r) image.block_dim.1 with
  | none => simp only [hqw] at h; cases h
  | some qw =>
    simp only [hqw] at h
    cases hqh : rdiv (bufferHeightEff r) image.block_dim.2 with
    | none => simp only [hqh] at h; cases h
    | some qh =>
      simp only [hqh] at h
      cases hm : (layersList r).mapM
          (splitLayer r image (u32 (qw * image.bytes_per_block))
            (u32 (qh * u32 (qw * image.bytes_per_block)))
            (u32 (qw * image.bytes_per_block) % PITCH_ALIGNMENT == 0)) with
      | none => simp only [hm] at h; cases h
      | some css =>
        simp only [hm, Option.some.injEq] at h
        subst h
        obtain ⟨cl, hcl, hcin⟩ := List.mem_flatten.mp hc
        obtain ⟨layer, _, hsl⟩ := mapM_mem_some _ _ _ hm cl hcl
        exact splitLayer_footprint_aligned r image _ _ _ layer cl hsl c hcin

def rC8 : BufferImageCopy := ⟨512, 0, 0, ⟨0, 0, 1⟩, ⟨0, 0, 0⟩, ⟨64, 1, 1⟩⟩

def imgC8 : NImage :=
  ⟨0, (1, 1), 4, fun _ _ _ => 0, fun _ => ⟨⟨true, false, false⟩, 0, 1, 0, 1⟩⟩

def csC8 : List Copy :=
  [⟨512, ⟨64, 1, 1⟩, 256, 0, ⟨0, 0, 0⟩, Offset.ZERO, ⟨64, 1, 1⟩⟩]

theorem split_buffer_copy_placement_alignment_witness :
    split_buffer_copy rC8 imgC8 = some csC8 ∧
    ∀ c ∈ csC8, c.footprint_offset % PLACEMENT_ALIGNMENT = 0 :=
  ⟨by decide, split_buffer_copy_placement_alignment rC8 imgC8 csC8 (by decide)⟩

theorem alignedOf_self (n : Nat) (hn : n < 2 ^ 64)
    (h : n % PLACEMENT_ALIGNMENT = 0) : alignedOf n = n :=
  land_not511_self n hn h

theorem mapM_map_some {α β : Type} (f : α → Option β) (g : α → β) :
    ∀ (xs : List α), (∀ x ∈ xs, f x = some (g x)) →
    xs.mapM f = some (xs.map g) := by
  intro xs
  induction xs with
  | nil => intro _; rfl
  | cons a as ih =>
    intro hall
    rw [List.mapM_cons, hall a (List.mem_cons_self a as),
      ih (fun x hx => hall x (List.mem_cons_of_mem a hx))]
    rfl

theorem flatten_map_singletonF {α β : Type} (f : α → β) :
    ∀ (xs : List α), (xs.map (fun x => [f x])).flatten = xs.map f := by
  intro xs
  induction xs with
  | nil => rfl
  | cons a as ih => simp only [List.map_cons, List.flatten_cons, ih]; rfl

theorem splitLayer_aligned (r : BufferImageCopy) (image : NImage)
    (row_pitch slice_pitch : Nat) (layer : Nat)
    (hpitch : row_pitch % PITCH_ALIGNMENT = 0)
    (halign : layerOffsetOf r slice_pitch layer % PLACEMENT_ALIGNMENT = 0) :
    splitLayer r image row_pitch slice_pitch (row_pitch % PITCH_ALIGNMENT == 0)
      layer =
    some [⟨layerOffsetOf r slice_pitch layer, r.image_extent, row_pitch,
      image.calc_subresource r.image_layers.level layer 0,
      r.image_offset, Offset.ZERO, r.image_extent⟩] := by
  have hself : alignedOf (layerOffsetOf r slice_pitch layer) =
      layerOffsetOf r slice_pitch layer :=
    alignedOf_self _ (layerOffsetOf_lt r slice_pitch layer) halign
  unfold splitLayer
  rw [if_pos ⟨hself.symm, by rw [beq_iff_eq]; exact hpitch⟩, hself]

/-- C4: when every layer's buffer byte offset is placement-aligned and the
row pitch is pitch-aligned, `split_buffer_copy` emits exactly one `Copy`
per requested layer, whose `footprint_offset` is the layer's buffer
offset, whose `footprint` and `copy_extent` equal the requested image
extent, whose `img_offset` is the requested image offset, and whose
buffer-side texel offset is zero. -/
theorem split_buffer_copy_aligned_case
    (r : BufferImageCopy) (image : NImage) (qw qh : Nat)
    (hqw : rdiv (bufferWidthEff r) image.block_dim.1 = some qw)
    (hqh : rdiv (bufferHeightEff r) image.block_dim.2 = some qh)
    (hpitch : u32 (qw * image.bytes_per_block) % PITCH_ALIGNMENT = 0)
    (halign : ∀ layer ∈ layersList r,
      layerOffsetOf r (u32 (qh * u32 (qw * image.bytes_per_block))) layer %
        PLACEMENT_ALIGNMENT = 0) :
    split_buffer_copy r image = some ((layersList r).map (fun layer =>
      ⟨layerOffsetOf r (u32 (qh * u32 (qw * image.bytes_per_block))) layer,
       r.image_extent, u32 (qw * image.bytes_per_block),
       image.calc_subresource r.image_layers.level layer 0,
       r.image_offset, Offset.ZERO, r.image_extent⟩)) := by
  unfold split_buffer_copy
  simp only [hqw, hqh]
  rw [mapM_map_some
    (splitLayer r image (u32 (qw * image.bytes_per_block))
      (u32 (qh * u32 (qw * image.bytes_per_block)))
      (u32 (qw * image.bytes_per_block) % PITCH_ALIGNMENT == 0))
    (fun layer =>
      [⟨layerOffsetOf r (u32 (qh * u32 (qw * image.bytes_per_block))) layer,
        r.image_extent, u32 (qw * image.bytes_per_block),
        image.calc_subresource r.image_layers.level layer 0,
        r.image_offset, Offset.ZERO, r.image_extent⟩])
    (layersList r)
    (fun layer hmem => splitLayer_aligned r image _ _ layer hpitch
      (halign layer hmem))]
  exact congrArg some (flatten_map_singletonF _ (layersList r))

def rC4 : BufferImageCopy := ⟨0, 0, 0, ⟨0, 0, 2⟩, ⟨1, 2, 3⟩, ⟨128, 1, 1⟩⟩

def imgC4 : NImage :=
  ⟨0, (1, 1), 4, fun _ l _ => l, fun _ => ⟨⟨true, false, false⟩, 0, 1, 0, 1⟩⟩

theorem split_buffer_copy_aligned_case_witness :
    rdiv (bufferWidthEff rC4) imgC4.block_dim.1 = some 128 ∧
    rdiv (bufferHeightEff rC4) imgC4.block_dim.2 = some 1 ∧
    u32 (128 * imgC4.bytes_per_block) % PITCH_ALIGNMENT = 0 ∧
    (∀ layer ∈ layersList rC4,
      layerOffsetOf rC4 (u32 (1 * u32 (128 * imgC4.bytes_per_block))) layer %
        PLACEMENT_ALIGNMENT = 0) ∧
    split_buffer_copy rC4 imgC4 = some ((layersList rC4).map (fun layer =>
      ⟨layerOffsetOf rC4 (u32 (1 * u32 (128 * imgC4.bytes_per_block))) layer,
       rC4.image_extent, u32 (128 * imgC4.bytes_per_block),
       imgC4.calc_subresource rC4.image_layers.level layer 0,
       rC4.image_offset, Offset.ZERO, rC4.image_extent⟩)) :=
  ⟨by decide, by decide, by decide, by decide,
   split_buffer_copy_aligned_case rC4 imgC4 128 1 (by decide) (by decide)
     (by decide) (by decide)⟩

theorem addI32_eq (a b : Int) (h1 : -(2 ^ 31) ≤ a + b) (h2 : a + b < 2 ^ 31) :
    addI32 a b = a + b := by
  unfold addI32 toI32 i32toU32
  split <;> omega

theorem countP_flatMapF {α β : Type} (p : β → Bool) (f : α → List β) :
    ∀ (L : List α), ((L.flatMap f).countP p) =
      (L.map (fun a => (f a).countP p)).sum := by
  intro L
  induction L with
  | nil => rfl
  | cons a L2 ih =>
    rw [List.flatMap_cons, List.countP_append, List.map_cons, List.sum_cons, ih]

theorem sum_range_ite_int (w : Int) (P : Prop) [Decidable P] :
    ∀ (n : Nat),
    ((List.range n).map (fun (i : Nat) => if ((i : Int) = w ∧ P) then 1 else 0)).sum
      = if (0 ≤ w ∧ w < (n : Int) ∧ P) then 1 else 0 := by
  intro n
  induction n with
  | zero =>
    rw [List.range_zero, List.map_nil, List.sum_nil]
    rw [if_neg (fun hc => by omega)]
  | succ n ih =>
    rw [List.range_succ, List.map_append, List.sum_append, ih]
    rw [List.map_cons, List.map_nil, List.sum_cons, List.sum_nil]
    by_cases hP : P
    · by_cases hw : (n : Int) = w
      · rw [if_neg (fun hc => by omega), if_pos ⟨hw, hP⟩,
          if_pos ⟨by omega, by omega, hP⟩]
        rfl
      · by_cases hlt : 0 ≤ w ∧ w < (n : Int)
        · rw [if_pos ⟨hlt.1, hlt.2, hP⟩, if_neg (fun hc => hw hc.1),
            if_pos ⟨hlt.1, by omega, hP⟩]
          rfl
        · rw [if_neg (fun hc => hlt ⟨hc.1, hc.2.1⟩), if_neg (fun hc => hw hc.1),
            if_neg (fun hc => hlt ⟨hc.1, by omega⟩)]
          rfl
    · rw [if_neg (fun hc => hP hc.2.2), if_neg (fun hc => hP hc.2),
        if_neg (fun hc => hP hc.2.2)]
      rfl

theorem map_congrF {α β : Type} (f g : α → β) :
    ∀ (l : List α), (∀ a ∈ l, f a = g a) → l.map f = l.map g := by
  intro l
  induction l with
  | nil => intro _; rfl
  | cons a l2 ih =>
    intro h
    rw [List.map_cons, List.map_cons, h a (List.mem_cons_self a l2),
      ih (fun b hb => h b (List.mem_cons_of_mem a hb))]

theorem sum_map_indicator_zero (t X : Nat) :
    ∀ (L : List Nat), t ∉ L →
    (L.map (fun l => if l = t then X else 0)).sum = 0 := by
  intro L
  induction L with
  | nil => intro _; rfl
  | cons a L2 ih =>
    intro hnot
    rw [List.map_cons, List.sum_cons,
      if_neg (fun he => hnot (by rw [← he]; exact List.mem_cons_self a L2)),
      ih (fun hm => hnot (List.mem_cons_of_mem a hm))]

theorem sum_map_indicatorF (t X : Nat) :
    ∀ (L : List Nat), t ∈ L → L.Nodup →
    (L.map (fun l => if l = t then X else 0)).sum = X := by
  intro L
  induction L with
  | nil => intro h _; cases h
  | cons a L2 ih =>
    intro hmem hnd
    rw [List.map_cons, List.sum_cons]
    rcases List.mem_cons.mp hmem with heq | hm
    · rw [if_pos heq.symm,
        sum_map_indicator_zero t X L2
          (fun hm2 => (List.nodup_cons.mp hnd).1 (by rw [← heq]; exact hm2))]
      rfl
    · rw [if_neg (fun he => (List.nodup_cons.mp hnd).1 (by rw [he]; exact hm)),
        ih hm (List.nodup_cons.mp hnd).2, Nat.zero_add]

theorem count_single_full (r : BufferImageCopy) (x y z : Int)
    (fo rp sub : Nat) (fp : Extent) (bo : Offset) :
    List.countP (fun c => texelInCopy c x y z)
      [⟨fo, fp, rp, sub, r.image_offset, bo, r.image_extent⟩] =
    if texelInRegion r x y z = true then 1 else 0 := by
  rw [List.countP_cons, List.countP_nil]
  have he : texelInCopy ⟨fo, fp, rp, sub, r.image_offset, bo, r.image_extent⟩ x y z
      = texelInRegion r x y z := rfl
  rw [he]
  cases texelInRegion r x y z <;> rfl

theorem count_split_pair (r : BufferImageCopy) (x y z : Int)
    (fo1 fo2 rp1 rp2 sub1 sub2 : Nat) (fp1 fp2 : Extent) (bo1 bo2 : Offset)
    (half : Nat) (hhw : half ≤ r.image_extent.width)
    (hox : 0 ≤ r.image_offset.x)
    (hoxw : r.image_offset.x + r.image_extent.width < 2 ^ 31) :
    List.countP (fun c => texelInCopy c x y z)
      [⟨fo1, fp1, rp1, sub1, r.image_offset, bo1,
        ⟨half, r.image_extent.height, r.image_extent.depth⟩⟩,
       ⟨fo2, fp2, rp2, sub2,
        ⟨addI32 r.image_offset.x (toI32 half), r.image_offset.y, r.image_offset.z⟩,
        bo2,
        ⟨r.image_extent.width - half, r.image_extent.height, r.image_extent.depth⟩⟩] =
    if texelInRegion r x y z = true then 1 else 0 := by
  have hhalf31 : half < 2 ^ 31 := by omega
  have htoI : toI32 half = (half : Int) := toI32_eq_of_lt (by exact_mod_cast hhalf31)
  have hadd : addI32 r.image_offset.x (toI32 half) = r.image_offset.x + half := by
    rw [htoI]
    exact addI32_eq _ _ (by omega) (by omega)
  rw [List.countP_cons, List.countP_cons, List.countP_nil]
  simp only [texelInCopy, texelInRegion, hadd, Bool.and_eq_true, decide_eq_true_eq]
  split_ifs <;> omega

/-- The indicator of one `(z, y)` row's image coverage. -/
def rowInd (r : BufferImageCopy) (x yv zv : Int) (z y : Nat) : Nat :=
  if ((y : Int) = yv - r.image_offset.y ∧ ((z : Int) = zv - r.image_offset.z ∧
    (r.image_offset.x ≤ x ∧ x < r.image_offset.x + r.image_extent.width)))
  then 1 else 0

/-- The indicator of one `z` slice's image coverage. -/
def sliceInd (r : BufferImageCopy) (x yv zv : Int) (z : Nat) : Nat :=
  if ((z : Int) = zv - r.image_offset.z ∧
    (0 ≤ yv - r.image_offset.y ∧ yv - r.image_offset.y < (r.image_extent.height : Int) ∧
      (r.image_offset.x ≤ x ∧ x < r.image_offset.x + r.image_extent.width)))
  then 1 else 0

theorem splitRowCopies_count (r : BufferImageCopy)
    (bpb sub lo sp rp z y : Nat) (x yv zv : Int)
    (hy : y < r.image_extent.height) (hz : z < r.image_extent.depth)
    (hox : 0 ≤ r.image_offset.x)
    (hoxw : r.image_offset.x + r.image_extent.width < 2 ^ 31)
    (hoy : 0 ≤ r.image_offset.y)
    (hoyh : r.image_offset.y + r.image_extent.height < 2 ^ 31)
    (hoz : 0 ≤ r.image_offset.z)
    (hozd : r.image_offset.z + r.image_extent.depth < 2 ^ 31) :
    (splitRowCopies r bpb sub lo sp rp z y).countP (fun c => texelInCopy c x yv zv) =
    rowInd r x yv zv z y := by
  have htoy : toI32 y = (y : Int) := toI32_eq_of_lt (by omega)
  have htoz : toI32 z = (z : Int) := toI32_eq_of_lt (by omega)
  have haddy : addI32 r.image_offset.y (toI32 y) = r.image_offset.y + y := by
    rw [htoy]
    exact addI32_eq _ _ (by omega) (by omega)
  have haddz : addI32 r.image_offset.z (toI32 z) = r.image_offset.z + z := by
    rw [htoz]
    exact addI32_eq _ _ (by omega) (by omega)
  have hcw : cutWidthOf r bpb (rowOffsetOf lo sp rp z y) ≤ r.image_extent.width :=
    Nat.min_le_left _ _
  have htocw : toI32 (cutWidthOf r bpb (rowOffsetOf lo sp rp z y)) =
      (cutWidthOf r bpb (rowOffsetOf lo sp rp z y) : Int) :=
    toI32_eq_of_lt (by omega)
  have haddcw : addI32 r.image_offset.x
      (toI32 (cutWidthOf r bpb (rowOffsetOf lo sp rp z y))) =
      r.image_offset.x + cutWidthOf r bpb (rowOffsetOf lo sp rp z y) := by
    rw [htocw]
    exact addI32_eq _ _ (by omega) (by omega)
  unfold splitRowCopies rowInd
  split
  · rename_i hcweq
    rw [List.countP_cons, List.countP_nil]
    simp only [texelInCopy, haddy, haddz, Bool.and_eq_true, decide_eq_true_eq]
    split_ifs <;> omega
  · rename_i hcwne
    rw [List.countP_cons, List.countP_cons, List.countP_nil]
    simp only [texelInCopy, haddy, haddz, haddcw, Bool.and_eq_true, decide_eq_true_eq]
    split_ifs <;> omega

theorem splitLayer_caseC_count (r : BufferImageCopy) (bpb sub lo sp rp : Nat)
    (x yv zv : Int)
    (hox : 0 ≤ r.image_offset.x)
    (hoxw : r.image_offset.x + r.image_extent.width < 2 ^ 31)
    (hoy : 0 ≤ r.image_offset.y)
    (hoyh : r.image_offset.y + r.image_extent.height < 2 ^ 31)
    (hoz : 0 ≤ r.image_offset.z)
    (hozd : r.image_offset.z + r.image_extent.depth < 2 ^ 31) :
    ((List.range r.image_extent.depth).flatMap (fun z =>
      (List.range r.image_extent.height).flatMap (fun y =>
        splitRowCopies r bpb sub lo sp rp z y))).countP
          (fun c => texelInCopy c x yv zv) =
    if texelInRegion r x yv zv = true then 1 else 0 := by
  rw [countP_flatMapF]
  have hinner : ∀ z ∈ List.range r.image_extent.depth,
      ((List.range r.image_extent.height).flatMap (fun y =>
        splitRowCopies r bpb sub lo sp rp z y)).countP
          (fun c => texelInCopy c x yv zv) = sliceInd r x yv zv z := by
    intro z hzmem
    have hzlt := List.mem_range.mp hzmem
    rw [countP_flatMapF]
    have hrows : ∀ y ∈ List.range r.image_extent.height,
        (splitRowCopies r bpb sub lo sp rp z y).countP
          (fun c => texelInCopy c x yv zv) = rowInd r x yv zv z y :=
      fun y hymem => splitRowCopies_count r bpb sub lo sp rp z y x yv zv
        (List.mem_range.mp hymem) hzlt hox hoxw hoy hoyh hoz hozd
    rw [map_congrF _ (rowInd r x yv zv z) _ hrows]
    unfold rowInd
    rw [sum_range_ite_int (yv - r.image_offset.y)
      ((z : Int) = zv - r.image_offset.z ∧
        (r.image_offset.x ≤ x ∧ x < r.image_offset.x + r.image_extent.width))
      r.image_extent.height]
    unfold sliceInd
    rw [if_congr (show
      (0 ≤ yv - r.image_offset.y ∧
        yv - r.image_offset.y < (r.image_extent.height : Int) ∧
        ((z : Int) = zv - r.image_offset.z ∧
          (r.image_offset.x ≤ x ∧ x < r.image_offset.x + r.image_extent.width))) ↔
      ((z : Int) = zv - r.image_offset.z ∧
        (0 ≤ yv - r.image_offset.y ∧
          yv - r.image_offset.y < (r.image_extent.height : Int) ∧
          (r.image_offset.x ≤ x ∧ x < r.image_offset.x + r.image_extent.width)))
      from by constructor <;> intro hh <;> omega) rfl rfl]
  rw [map_congrF _ (sliceInd r x yv zv) _ hinner]
  unfold sliceInd
  rw [sum_range_ite_int (zv - r.image_offset.z)
    (0 ≤ yv - r.image_offset.y ∧ yv - r.image_offset.y < (r.image_extent.height : Int) ∧
      (r.image_offset.x ≤ x ∧ x < r.image_offset.x + r.image_extent.width))
    r.image_extent.depth]
  rw [if_congr (show _ ↔ texelInRegion r x yv zv = true from by
    simp only [texelInRegion, Bool.and_eq_true, decide_eq_true_eq]
    constructor <;> intro hh <;> omega) rfl rfl]

theorem splitCaseB_count (r : BufferImageCopy)
    (row_pitch rpt sub ao : Nat) (bo : Offset) (copies : List Copy)
    (h : splitCaseB r row_pitch rpt sub ao bo = some copies)
    (hox : 0 ≤ r.image_offset.x)
    (hoxw : r.image_offset.x + r.image_extent.width < 2 ^ 31)
    (x y z : Int) :
    copies.countP (fun c => texelInCopy c x y z) =
    if texelInRegion r x y z = true then 1 else 0 := by
  unfold splitCaseB at h
  split at h
  · cases h
    exact count_single_full r x y z _ _ _ _ _
  · split at h
    · cases h
    · split at h
      · cases h
      · rename_i hle
        cases h
        exact count_split_pair r x y z _ _ _ _ _ _ _ _ _ _ _
          (Decidable.of_not_not hle) hox hoxw

set_option maxRecDepth 8000 in
theorem splitLayer_coverage (r : BufferImageCopy) (image : NImage)
    (row_pitch slice_pitch : Nat) (ipa : Bool) (layer : Nat)
    (copies : List Copy)
    (h : splitLayer r image row_pitch slice_pitch ipa layer = some copies)
    (hox : 0 ≤ r.image_offset.x)
    (hoxw : r.image_offset.x + r.image_extent.width < 2 ^ 31)
    (hoy : 0 ≤ r.image_offset.y)
    (hoyh : r.image_offset.y + r.image_extent.height < 2 ^ 31)
    (hoz : 0 ≤ r.image_offset.z)
    (hozd : r.image_offset.z + r.image_extent.depth < 2 ^ 31)
    (x y z : Int) :
    copies.countP (fun c => texelInCopy c x y z) =
    if texelInRegion r x y z = true then 1 else 0 := by
  unfold splitLayer at h
  split at h
  · cases h
    exact count_single_full r x y z _ _ _ _ _
  · split at h
    · split at h
      · cases h
      · split at h
        · cases h
        · split at h
          · cases h
          · exact splitCaseB_count r row_pitch _ _ _ _ copies h hox hoxw x y z
    · split at h
      · cases h
      · split at h
        · cases h
        · cases h
          exact splitLayer_caseC_count r image.bytes_per_block _ _ _ _ x y z
            hox hoxw hoy hoyh hoz hozd

set_option maxRecDepth 8000 in
theorem splitLayer_subresource (r : BufferImageCopy) (image : NImage)
    (row_pitch slice_pitch : Nat) (ipa : Bool) (layer : Nat)
    (copies : List Copy)
    (h : splitLayer r image row_pitch slice_pitch ipa layer = some copies) :
    ∀ c ∈ copies, c.img_subresource =
      image.calc_subresource r.image_layers.level layer 0 := by
  intro c hc
  unfold splitLayer at h
  split at h
  · cases h
    cases hc with
    | head => rfl
    | tail _ hm => cases hm
  · split at h
    · split at h
      · cases h
      · split at h
        · cases h
        · split at h
          · cases h
          · unfold splitCaseB at h
            split at h
            · cases h
              cases hc with
              | head => rfl
              | tail _ hm => cases hm
            · split at h
              · cases h
              · split at h
                · cases h
                · cases h
                  cases hc with
                  | head => rfl
                  | tail _ hm =>
                    cases hm with
                    | head => rfl
                    | tail _ hm2 => cases hm2
    · split at h
      · cases h
      · split at h
        · cases h
        · cases h
          obtain ⟨z, hz, hcy⟩ := List.mem_flatMap.mp hc
          obtain ⟨y, hy, hcr⟩ := List.mem_flatMap.mp hcy
          unfold splitRowCopies at hcr
          split at hcr
          · cases hcr with
            | head => rfl
            | tail _ hm => cases hm
          · cases hcr with
            | head => rfl
            | tail _ hm =>
              cases hm with
              | head => rfl
              | tail _ hm2 => cases hm2

theorem countP_flatten_mapM {α β : Type} (f : α → Option (List β))
    (p : β → Bool) (g : α → Nat) :
    ∀ (L : List α) (css : List (List β)), L.mapM f = some css →
    (∀ l ∈ L, ∀ cl, f l = some cl → cl.countP p = g l) →
    css.flatten.countP p = (L.map g).sum := by
  intro L
  induction L with
  | nil =>
    intro css h _
    cases h
    rfl
  | cons a as ih =>
    intro css h hall
    rw [List.mapM_cons] at h
    cases hfa : f a with
    | none => simp only [hfa, Option.bind_eq_bind, Option.none_bind] at h; cases h
    | some cl =>
      simp only [hfa, Option.bind_eq_bind, Option.some_bind] at h
      cases hrec : as.mapM f with
      | none =>
        simp only [hrec, Option.bind_eq_bind, Option.none_bind] at h; cases h
      | some css2 =>
        simp only [hrec, Option.bind_eq_bind, Option.some_bind, Option.pure_def,
          Option.some.injEq] at h
        subst h
        rw [List.flatten_cons, List.countP_append, List.map_cons, List.sum_cons,
          hall a (List.mem_cons_self a as) cl hfa,
          ih css2 hrec (fun l hl => hall l (List.mem_cons_of_mem a hl))]

theorem layersList_nodup (r : BufferImageCopy) : (layersList r).Nodup :=
  List.nodup_range' _ _

/-- C1 (amended): for a copy accepted by the splitter whose image offsets
are non-negative and whose offset-plus-extent stays below `2^31` on every
axis (so the `as i32` casts and `i32` additions of the splitter cannot
wrap), and whose layers map to pairwise distinct subresources, every image
texel of the requested region is covered by exactly one produced `Copy`
of each requested layer's subresource, and texels outside the region are
covered by none — no gaps and no overlaps, in all three alignment cases.
Without the `2^31` bounds the claim is false
(see the counterexample). -/
theorem split_buffer_copy_coverage
    (r : BufferImageCopy) (image : NImage) (cs : List Copy)
    (h : split_buffer_copy r image = some cs)
    (hox : 0 ≤ r.image_offset.x)
    (hoxw : r.image_offset.x + r.image_extent.width < 2 ^ 31)
    (hoy : 0 ≤ r.image_offset.y)
    (hoyh : r.image_offset.y + r.image_extent.height < 2 ^ 31)
    (hoz : 0 ≤ r.image_offset.z)
    (hozd : r.image_offset.z + r.image_extent.depth < 2 ^ 31)
    (hinj : ∀ l1 ∈ layersList r, ∀ l2 ∈ layersList r,
      image.calc_subresource r.image_layers.level l1 0 =
        image.calc_subresource r.image_layers.level l2 0 → l1 = l2)
    (layer : Nat) (hlay : layer ∈ layersList r) (x y z : Int) :
    cs.countP (fun c =>
      (c.img_subresource == image.calc_subresource r.image_layers.level layer 0) &&
      texelInCopy c x y z) =
    if texelInRegion r x y z = true then 1 else 0 := by
  unfold split_buffer_copy at h
  cases hqw : rdiv (bufferWidthEff r) image.block_dim.1 with
  | none => simp only [hqw] at h; cases h
  | some qw =>
    simp only [hqw] at h
    cases hqh : rdiv (bufferHeightEff r) image.block_dim.2 with
    | none => simp only [hqh] at h; cases h
    | some qh =>
      simp only [hqh] at h
      cases hm : (layersList r).mapM
          (splitLayer r image (u32 (qw * image.bytes_per_block))
            (u32 (qh * u32 (qw * image.bytes_per_block)))
            (u32 (qw * image.bytes_per_block) % PITCH_ALIGNMENT == 0)) with
      | none => simp only [hm] at h; cases h
      | some css =>
        simp only [hm, Option.some.injEq] at h
        subst h
        have hall : ∀ l ∈ layersList r, ∀ cl,
            splitLayer r image (u32 (qw * image.bytes_per_block))
              (u32 (qh * u32 (qw * image.bytes_per_block)))
              (u32 (qw * image.bytes_per_block) % PITCH_ALIGNMENT == 0) l = some cl →
            cl.countP (fun c =>
              (c.img_subresource ==
                image.calc_subresource r.image_layers.level layer 0) &&
              texelInCopy c x y z) =
            (if l = layer then
              (if texelInRegion r x y z = true then 1 else 0) else 0) := by
          intro l hl cl hcl
          by_cases hll : l = layer
          · subst hll
            rw [if_pos rfl,
              countP_congrF _ (fun c => texelInCopy c x y z) cl
                (fun c hcmem => by
                  rw [splitLayer_subresource r image _ _ _ l cl hcl c hcmem]
                  simp)]
            exact splitLayer_coverage r image _ _ _ l cl hcl
              hox hoxw hoy hoyh hoz hozd x y z
          · rw [if_neg hll]
            refine countP_zeroF _ cl ?_
            intro c hcmem
            have hneq : image.calc_subresource r.image_layers.level l 0 ≠
                image.calc_subresource r.image_layers.level layer 0 :=
              fun he => hll (hinj l hl layer hlay he)
            rw [splitLayer_subresource r image _ _ _ l cl hcl c hcmem,
              beq_eq_false_iff_ne.mpr hneq, Bool.false_and]
        rw [countP_flatten_mapM _ _
          (fun l => if l = layer then
            (if texelInRegion r x y z = true then 1 else 0) else 0)
          (layersList r) css hm hall]
        exact sum_map_indicatorF layer _ (layersList r) hlay (layersList_nodup r)

def rC1 : BufferImageCopy :=
  ⟨1, 2147483904, 1, ⟨0, 0, 1⟩, ⟨0, 0, 0⟩, ⟨2147483948, 1, 1⟩⟩

def imgC1 : NImage :=
  ⟨0, (1, 1), 1, fun _ _ _ => 0, fun _ => ⟨⟨true, false, false⟩, 0, 1, 0, 1⟩⟩

def csC1 : List Copy :=
  [⟨0, ⟨2147483904, 1, 1⟩, 2147483904, 0, ⟨0, 0, 0⟩, ⟨1, 0, 0⟩,
    ⟨2147483903, 1, 1⟩⟩,
   ⟨0, ⟨45, 2, 1⟩, 2147483904, 0, ⟨-2147483393, 0, 0⟩, ⟨0, 0, 0⟩,
    ⟨45, 1, 1⟩⟩]

/-- C1 counterexample: a region the splitter accepts (one layer, width
`2^31 + 300` texels, buffer offset 1, pitch-aligned row pitch
`2^31 + 256`) reaches the two-way split with `half = 2^31 + 255`; the
second copy's `img_offset.x = r.image_offset.x + half as i32` wraps to a
negative `i32`, so image texel `x = 2^31 + 255` of the requested region
is covered by no produced copy — the union of the produced extents does
not cover the input region. -/
theorem split_buffer_copy_coverage_gap :
    split_buffer_copy rC1 imgC1 = some csC1 ∧
    texelInRegion rC1 2147483903 0 0 = true ∧
    ∀ c ∈ csC1, texelInCopy c 2147483903 0 0 = false :=
  ⟨by decide, by decide, by decide⟩

def rC1w : BufferImageCopy := ⟨256, 0, 0, ⟨0, 0, 1⟩, ⟨0, 0, 0⟩, ⟨64, 1, 1⟩⟩

def imgC1w : NImage :=
  ⟨0, (1, 1), 4, fun _ l _ => l, fun _ => ⟨⟨true, false, false⟩, 0, 1, 0, 1⟩⟩

def csC1w : List Copy :=
  [⟨0, ⟨64, 1, 2⟩, 256, 0, ⟨0, 0, 0⟩, ⟨0, 0, 1⟩, ⟨64, 1, 1⟩⟩]

theorem split_buffer_copy_coverage_witness :
    split_buffer_copy rC1w imgC1w = some csC1w ∧
    0 ∈ layersList rC1w ∧
    csC1w.countP (fun c =>
      (c.img_subresource == imgC1w.calc_subresource rC1w.image_layers.level 0 0) &&
      texelInCopy c 5 0 0) =
    if texelInRegion rC1w 5 0 0 = true then 1 else 0 :=
  ⟨by decide, by decide,
   split_buffer_copy_coverage rC1w imgC1w csC1w (by decide) (by decide)
     (by decide) (by decide) (by decide) (by decide) (by decide) (by decide)
     0 (by decide) 5 0 0⟩

end Dx12Cmd
